import Mathlib

/-!
Shallow embedding of the task board and scheduling core of the
Devflow pm-service repository, file app/crud/task.py.

Modelling conventions:
* The relational store behind the SQLAlchemy session is a value of type
  DB holding the task rows, the board-column rows and the
  task_dependencies association rows (pairs of task_id, dependency_id).
* String uuid identifiers are modelled as natural numbers; uuid
  generation inside a create operation is modelled by a caller-supplied
  fresh identifier argument.
* SQL NULL is modelled by Option.
* estimated_hours is a Python float in the source; every claim under
  scrutiny uses integer-valued durations, and the operations the
  calculator applies to them (addition, subtraction, max, min,
  comparison, equality) agree with exact integer arithmetic on such
  values, so durations and times are embedded as Int.
* Python truthiness of an optional numeric scalar (None and 0 are both
  falsy) is modelled explicitly by orFalsy where the source relies on
  the Python or operator, and by hoursTruthy for the any(...) test.
* Queries with order_by are modelled by a stable insertion sort of the
  row list; SQL row mutation is modelled by mapping over the row list.
* Row fields never read or written by the operations under scrutiny
  (title, description, status, priority, reporter, assignee, dates,
  tags, wip limit, color, timestamps) are omitted; the source only
  copies them around and they do not interact with positions, orders,
  dependency edges or durations.
-/

namespace PM

/-- A row of the tasks table, restricted to the fields the board and
scheduling logic reads or writes. -/
structure Task where
  id : Nat
  projectId : Nat
  columnId : Option Nat
  position : Option Int
  estimatedHours : Option Int
deriving DecidableEq, Repr

/-- A row of the board_columns table. -/
structure BoardColumn where
  id : Nat
  projectId : Nat
  order : Int
deriving DecidableEq, Repr

/-- The store: task rows, column rows, and the task_dependencies
association rows as pairs (task_id, dependency_id). -/
structure DB where
  tasks : List Task
  columns : List BoardColumn
  edges : List (Nat × Nat)
deriving DecidableEq, Repr

/-- Source get_task_by_id: first task row with the given id. -/
def get_task_by_id (db : DB) (taskId : Nat) : Option Task :=
  db.tasks.find? (fun t => t.id == taskId)

/-- Source get_column_by_id: first column row with the given id. -/
def get_column_by_id (db : DB) (columnId : Nat) : Option BoardColumn :=
  db.columns.find? (fun c => c.id == columnId)

/-- Query for all tasks of a project, in row order. -/
def projTasks (db : DB) (pid : Nat) : List Task :=
  db.tasks.filter (fun t => t.projectId == pid)

/-- Query for all tasks whose column_id equals the given column id. -/
def columnTasks (db : DB) (cid : Nat) : List Task :=
  db.tasks.filter (fun t => t.columnId == some cid)

/-- Query for all columns of a project, in row order. -/
def projCols (db : DB) (pid : Nat) : List BoardColumn :=
  db.columns.filter (fun c => c.projectId == pid)

/-- The dependencies relationship of a task: join of the
task_dependencies rows having this task on the task_id side against
the task table. -/
def dependencies (db : DB) (t : Task) : List Task :=
  db.edges.filterMap (fun e => if e.1 == t.id then get_task_by_id db e.2 else none)

/-- Dependency ids of the task with the given id, through the join. -/
def depIdsOf (db : DB) (tid : Nat) : List Nat :=
  db.edges.filterMap (fun e =>
    if e.1 == tid then (get_task_by_id db e.2).map (fun t => t.id) else none)

/-- Comparison key for order_by Task.position; SQL sorts NULL first. -/
def posLEb (u v : Task) : Bool :=
  match u.position, v.position with
  | none, _ => true
  | some _, none => false
  | some a, some b => a ≤ b

/-- Propositional form of posLEb, for the sorting machinery. -/
def posLE (u v : Task) : Prop := posLEb u v = true

instance : DecidableRel posLE := fun _ _ => inferInstanceAs (Decidable (_ = true))

instance : IsTotal Task posLE := by
  constructor
  intro a b
  unfold posLE posLEb
  rcases a.position with _ | p <;> rcases b.position with _ | q <;> simp
  omega

instance : IsTrans Task posLE := by
  constructor
  intro a b c
  unfold posLE posLEb
  rcases a.position with _ | p <;> rcases b.position with _ | q <;>
    rcases c.position with _ | r <;> simp
  omega

/-- Query rows of a column ordered by position. -/
def sortByPos (l : List Task) : List Task := l.insertionSort posLE

/-- Comparison for order_by BoardColumn.order. -/
def ordLE (c d : BoardColumn) : Prop := c.order ≤ d.order

instance : DecidableRel ordLE := fun c d => inferInstanceAs (Decidable (c.order ≤ d.order))

instance : IsTotal BoardColumn ordLE := ⟨fun a b => le_total a.order b.order⟩

instance : IsTrans BoardColumn ordLE := ⟨fun _ _ _ h h2 => le_trans h h2⟩

/-- Query columns ordered by order. -/
def sortByOrder (l : List BoardColumn) : List BoardColumn := l.insertionSort ordLE

/-- Python: x or d, for an optional integer scalar; both None and 0 are
falsy and yield the default. -/
def orFalsy (x : Option Int) (d : Int) : Int :=
  match x with
  | none => d
  | some v => if v = 0 then d else v

/-- Python truthiness of an optional duration: None and 0 are falsy. -/
def hoursTruthy : Option Int → Bool
  | none => false
  | some q => q != 0

/-- Source idiom (task.estimated_hours or 0). -/
def dur (t : Task) : Int := orFalsy t.estimatedHours 0

/-- Payload of create_task, restricted to the modelled fields. -/
structure TaskCreate where
  projectId : Nat
  columnId : Option Nat
  position : Option Int
  estimatedHours : Option Int
deriving Repr

/-- Source create_task: resolve the target column (the first column of
the project ordered by order when none is given), then, when no
position is given and a column was resolved, assign
(max position in the column or 0) + 1; SQL max ignores NULL positions
and yields NULL on an empty column. -/
def create_task (db : DB) (td : TaskCreate) (newId : Nat) : DB × Task :=
  let colId :=
    match td.columnId with
    | some c => some c
    | none => ((sortByOrder (projCols db td.projectId)).head?).map (fun c => c.id)
  let pos :=
    if td.position = none ∧ colId.isSome then
      some (orFalsy (((db.tasks.filter (fun t => t.columnId == colId)).filterMap
        (fun t => t.position)).max?) 0 + 1)
    else td.position
  let t : Task := ⟨newId, td.projectId, colId, pos, td.estimatedHours⟩
  ({ db with tasks := db.tasks ++ [t] }, t)

/-- Source delete_task: remove every dependency edge having the task on
either side, then delete the row; False when the id is unknown. -/
def delete_task (db : DB) (taskId : Nat) : Bool × DB :=
  match get_task_by_id db taskId with
  | none => (false, db)
  | some _ =>
    (true, { db with
      tasks := db.tasks.filter (fun t => t.id != taskId),
      edges := db.edges.filter (fun e => !(e.1 == taskId || e.2 == taskId)) })

/-- Payload of update_task_schedule; a None field means the field is
absent from the request and is left untouched. -/
structure ScheduleData where
  estimatedHours : Option Int
  dependencies : Option (List Nat)
deriving Repr

/-- Field update a schedule request applies to the task row itself;
only the estimated hours interact with the modelled state. -/
def applySchedule (sd : ScheduleData) (u : Task) : Task :=
  match sd.estimatedHours with
  | some h => { u with estimatedHours := some h }
  | none => u

/-- Edge produced for one requested dependency id: present exactly when
the id resolves to an existing task of the given project other than
the task being scheduled. -/
def scheduleEdge (db : DB) (taskId : Nat) (pid : Nat) (depId : Nat) : Option (Nat × Nat) :=
  match get_task_by_id db depId with
  | some depTask =>
    if depTask.projectId = pid ∧ depId ≠ taskId then some (taskId, depId) else none
  | none => none

/-- Source update_task_schedule: update the schedule fields that are
present; when a dependency list is present, first delete every edge
having the task on the task_id side, then insert one edge per requested
dependency id that resolves to an existing task of the same project and
differs from the task itself. -/
def update_task_schedule (db : DB) (taskId : Nat) (sd : ScheduleData) : Option DB :=
  match get_task_by_id db taskId with
  | none => none
  | some t =>
    let tasks1 := db.tasks.map (fun u => if u.id == taskId then applySchedule sd u else u)
    let edges1 :=
      match sd.dependencies with
      | none => db.edges
      | some deps =>
        db.edges.filter (fun e => e.1 != taskId) ++
          deps.filterMap (scheduleEdge db taskId t.projectId)
    some { db with tasks := tasks1, edges := edges1 }

/-- Shift applied to the rows of the target column when a task moves in
from another column: rows at or after the insertion point move one slot
up. The source compares raw position values inside its loop; a NULL
position would raise there, and the shift helpers leave NULL rows
unchanged (no claim exercises a shifted NULL position). -/
def shiftIn (p : Int) (u : Task) : Task :=
  match u.position with
  | some q => if p ≤ q then { u with position := some (q + 1) } else u
  | none => u

/-- Same-column move toward a lower position: rows with
position ≤ q < current move one slot up. -/
def shiftUpRange (p cur : Int) (u : Task) : Task :=
  match u.position with
  | some q => if p ≤ q ∧ q < cur then { u with position := some (q + 1) } else u
  | none => u

/-- Same-column move toward a higher position: rows with
current < q ≤ position move one slot down. -/
def shiftDownRange (cur p : Int) (u : Task) : Task :=
  match u.position with
  | some q => if cur < q ∧ q ≤ p then { u with position := some (q - 1) } else u
  | none => u

/-- Row update of the clamp branch: the moved row is sent to the end of
the target column, every other row is untouched. -/
def moveClamp (tid : Nat) (mc : Option Nat) (n : Int) (u : Task) : Task :=
  if u.id == tid then { u with columnId := mc, position := some n } else u

/-- Row update of the cross-column branch: the moved row receives the
requested position, the rows of the target column at or after it move
one slot up. -/
def moveCross (tid : Nat) (mc : Option Nat) (p : Int) (nc : Option Nat) (u : Task) : Task :=
  if u.id == tid then { u with columnId := mc, position := some p }
  else if u.columnId == nc then shiftIn p u else u

/-- Row update of the same-column move toward a lower position. -/
def moveUp (tid : Nat) (mc : Option Nat) (p : Int) (cur : Nat) (nc : Option Nat) (u : Task) : Task :=
  if u.id == tid then { u with columnId := mc, position := some p }
  else if u.columnId == nc then shiftUpRange p cur u else u

/-- Row update of the same-column move toward a higher position. -/
def moveDown (tid : Nat) (mc : Option Nat) (p : Int) (cur : Nat) (nc : Option Nat) (u : Task) : Task :=
  if u.id == tid then { u with columnId := mc, position := some p }
  else if u.columnId == nc then shiftDownRange cur p u else u

/-- Row update of the branches that only reassign the column of the
moved row (same column and same position, or the task not found in the
ordered snapshot). -/
def moveColOnly (tid : Nat) (mc : Option Nat) (u : Task) : Task :=
  if u.id == tid then { u with columnId := mc } else u

/-- Source update_task_position. The target column defaults to the
current column; its rows are read ordered by position before any write.
The column_id is reassigned only when the column changed and the task
had a column. A requested position at or past the row count of the
target column is clamped to that count with no shifting; otherwise the
same-column branches locate the task by its index in the ordered
snapshot and shift the intervening rows, and the cross-column branch
shifts the target rows at or after the insertion point. The source
assigns the final position of the moved row after its loop, so mapping
the moved row directly to its final value is equivalent. -/
def update_task_position (db : DB) (taskId : Nat) (columnId : Option Nat)
    (position : Int) : Option DB :=
  match get_task_by_id db taskId with
  | none => none
  | some t =>
    let oldCol := t.columnId
    let newCol := match columnId with | some c => some c | none => oldCol
    let columnChanged := newCol ≠ oldCol
    let tasksInColumn := sortByPos (db.tasks.filter (fun u => u.columnId == newCol))
    let movedCol := if columnChanged ∧ oldCol.isSome then newCol else oldCol
    let n : Int := tasksInColumn.length
    if position ≥ n then
      some { db with tasks := db.tasks.map (moveClamp taskId movedCol n) }
    else if columnChanged then
      some { db with tasks := db.tasks.map (moveCross taskId movedCol position newCol) }
    else
      match tasksInColumn.findIdx? (fun u => u.id == taskId) with
      | some cur =>
        if position < (cur : Int) then
          some { db with tasks := db.tasks.map (moveUp taskId movedCol position cur newCol) }
        else if (cur : Int) < position then
          some { db with tasks := db.tasks.map (moveDown taskId movedCol position cur newCol) }
        else
          some { db with tasks := db.tasks.map (moveColOnly taskId movedCol) }
      | none =>
        some { db with tasks := db.tasks.map (moveColOnly taskId movedCol) }

/-- Payload of create_board_column, restricted to the modelled fields. -/
structure ColumnCreate where
  projectId : Nat
  order : Option Int
deriving Repr

/-- Source create_board_column: when no order is given, assign
(max order of the project columns or -1) + 1, where the Python or also
replaces an existing maximum of 0 by -1. -/
def create_board_column (db : DB) (cd : ColumnCreate) (newId : Nat) : DB × BoardColumn :=
  let ord :=
    match cd.order with
    | none => orFalsy (((projCols db cd.projectId).map (fun c => c.order)).max?) (-1) + 1
    | some o => o
  let c : BoardColumn := ⟨newId, cd.projectId, ord⟩
  ({ db with columns := db.columns ++ [c] }, c)

/-- Payload of update_board_column; a None order means the order field
is absent from the request. Other updatable fields are omitted: they do
not interact with the ordering logic. -/
structure ColumnUpdate where
  order : Option Int
deriving Repr

/-- Shift of the left-to-right reorder: project columns between the old
and the new order (new end included) move one slot left. -/
def colShiftLeft (pid : Nat) (oldOrder newOrder : Int) (c : BoardColumn) : BoardColumn :=
  if c.projectId = pid ∧ oldOrder < c.order ∧ c.order ≤ newOrder then
    { c with order := c.order - 1 }
  else c

/-- Shift of the right-to-left reorder: project columns between the new
and the old order (new end included) move one slot right. -/
def colShiftRight (pid : Nat) (newOrder oldOrder : Int) (c : BoardColumn) : BoardColumn :=
  if c.projectId = pid ∧ newOrder ≤ c.order ∧ c.order < oldOrder then
    { c with order := c.order + 1 }
  else c

/-- Final write of the reorder: the target column receives the new
order. -/
def colSetOrder (cid : Nat) (newOrder : Int) (c : BoardColumn) : BoardColumn :=
  if c.id == cid then { c with order := newOrder } else c

/-- Source update_board_column: when the order changes, shift the
project columns lying in the half-open interval between the old and
new order toward the vacated slot, then set the order of the target
column to the new value. -/
def update_board_column (db : DB) (columnId : Nat) (cu : ColumnUpdate) : Option DB :=
  match get_column_by_id db columnId with
  | none => none
  | some col =>
    let cols1 :=
      match cu.order with
      | some newOrder =>
        if newOrder ≠ col.order then
          if col.order < newOrder then
            db.columns.map (colShiftLeft col.projectId col.order newOrder)
          else
            db.columns.map (colShiftRight col.projectId newOrder col.order)
        else db.columns
      | none => db.columns
    let cols2 :=
      match cu.order with
      | some newOrder => cols1.map (colSetOrder columnId newOrder)
      | none => cols1
    some { db with columns := cols2 }

/-- Row update of the column deletion: tasks of the deleted column move
to the fallback column (or to no column) with their position cleared. -/
def rehome (cid : Nat) (fb : Option Nat) (t : Task) : Task :=
  if t.columnId == some cid then { t with columnId := fb, position := none } else t

/-- Fallback query of the column deletion: the other columns of the
same project. -/
def otherCols (db : DB) (pid cid : Nat) : List BoardColumn :=
  db.columns.filter (fun c => c.projectId = pid ∧ c.id ≠ cid)

/-- Shift of the column deletion: remaining project columns after the
deleted order move one slot left. -/
def colDropShift (pid : Nat) (deletedOrder : Int) (c : BoardColumn) : BoardColumn :=
  if c.projectId = pid ∧ deletedOrder < c.order then { c with order := c.order - 1 } else c

/-- Source delete_board_column: re-home the tasks of the deleted column
to the first other column of the project ordered by order (NULL column
when none exists), clearing their position; delete the column row;
decrement the order of the remaining project columns lying after the
deleted one. False when the id is unknown. -/
def delete_board_column (db : DB) (columnId : Nat) : Bool × DB :=
  match get_column_by_id db columnId with
  | none => (false, db)
  | some col =>
    let fallback := (sortByOrder (otherCols db col.projectId columnId)).head?
    let tasks1 := db.tasks.map (rehome columnId (fallback.map (fun c => c.id)))
    let cols1 := (db.columns.filter (fun c => c.id != columnId)).map
      (colDropShift col.projectId col.order)
    (true, { db with tasks := tasks1, columns := cols1 })

/-- Pointwise update of a dictionary keyed by task id. -/
def upd (f : Nat → Int) (k : Nat) (v : Int) : Nat → Int :=
  fun x => if x = k then v else f x

/-- The recursive topologically_sort helper of the source. The fuel
argument totalises the recursion; the visited set grows at every
descent, so any fuel larger than the number of ids ever reachable makes
the model agree with the source. The state is the pair of the visited
list and the ordered output. -/
def topoVisit (db : DB) (critical : List Nat) :
    Nat → Nat → List Nat × List Nat → List Nat × List Nat
  | 0, _, st => st
  | fuel + 1, tid, st =>
    if st.1.contains tid then st
    else
      let st1 := (tid :: st.1, st.2)
      let st2 := (depIdsOf db tid).foldl
        (fun s d => if critical.contains d then topoVisit db critical fuel d s else s) st1
      if critical.contains tid then (st2.1, st2.2 ++ [tid]) else st2

/-- Source calculate_critical_path. The est, eft, lst and lft
dictionaries are pre-populated for every project task, so the
membership guards of the recursive helpers never fire on same-project
dependency edges; the helpers therefore read whatever value the
dictionaries currently hold, in the iteration order of the task list,
exactly as the source does. Dictionaries are modelled as functions
updated pointwise; their value set is read off the task list. -/
def calculate_critical_path (db : DB) (pid : Nat) : List Nat × Int :=
  let tasks := projTasks db pid
  if !(tasks.any (fun t => hoursTruthy t.estimatedHours)) then ([], 0)
  else
    let startTasks := tasks.filter (fun t => (dependencies db t).isEmpty)
    if startTasks.isEmpty then ([], 0)
    else
      let dependentIds := tasks.foldl
        (fun acc t => acc ++ (dependencies db t).map (fun d => d.id)) []
      let endTasks0 := tasks.filter (fun t => !(dependentIds.contains t.id))
      let endTasks := if endTasks0.isEmpty then tasks else endTasks0
      let fwd := tasks.foldl (fun (p : (Nat → Int) × (Nat → Int)) t =>
        if p.2 t.id = 0 then
          let m := (dependencies db t).foldl (fun m d => max m (p.2 d.id)) 0
          (upd p.1 t.id m, upd p.2 t.id (m + dur t))
        else p) (fun _ => 0, fun _ => 0)
      let est := fwd.1
      let eft := fwd.2
      let completion :=
        match tasks with
        | [] => 0
        | t0 :: rest => rest.foldl (fun m u => max m (eft u.id)) (eft t0.id)
      let dependentsOf := fun (tid : Nat) =>
        tasks.filter (fun u => (dependencies db u).any (fun d => d.id == tid))
      let bwd1 := endTasks.foldl (fun (p : (Nat → Int) × (Nat → Int)) t =>
        (upd p.1 t.id (completion - dur t), upd p.2 t.id completion))
        (fun _ => completion, fun _ => completion)
      let bwd := tasks.foldl (fun (p : (Nat → Int) × (Nat → Int)) t =>
        let ds := dependentsOf t.id
        if ds.isEmpty then p
        else
          let m := ds.foldl (fun m u => min m (p.1 u.id)) completion
          (upd p.1 t.id (m - dur t), upd p.2 t.id m)) bwd1
      let lst := bwd.1
      let critical := (tasks.filter
        (fun t => decide (lst t.id - est t.id = 0 ∧ 0 < dur t))).map (fun t => t.id)
      let fuel := db.tasks.length + 2 * db.edges.length + 1
      let res := critical.foldl
        (fun st tid => if st.1.contains tid then st else topoVisit db critical fuel tid st)
        ([], [])
      (res.2, completion)

/-- Invariant on dependency edges: every edge joins two existing tasks
of the same project and never joins a task to itself. -/
def DepInvariant (db : DB) : Prop :=
  ∀ e ∈ db.edges, ∃ a ∈ db.tasks, ∃ b ∈ db.tasks,
    a.id = e.1 ∧ b.id = e.2 ∧ a.projectId = b.projectId ∧ e.1 ≠ e.2

/-- Density of the positions of a list of task rows: every row carries
a position in 0..n-1, every such value occurs, and no two rows share a
position, where n is the number of rows. -/
def DensePositions (l : List Task) : Prop :=
  (∀ u ∈ l, ∃ k : Int, u.position = some k ∧ 0 ≤ k ∧ k < l.length) ∧
  (∀ k : Int, 0 ≤ k → k < l.length → ∃ u ∈ l, u.position = some k) ∧
  (∀ u ∈ l, ∀ v ∈ l, u.position = v.position → u = v)

/-- Density of the orders of a list of column rows: every row carries
an order in 0..m-1, every such value occurs, and no two rows share an
order, where m is the number of rows. -/
def DenseOrders (l : List BoardColumn) : Prop :=
  (∀ c ∈ l, 0 ≤ c.order ∧ c.order < l.length) ∧
  (∀ k : Int, 0 ≤ k → k < l.length → ∃ c ∈ l, c.order = k) ∧
  (∀ c ∈ l, ∀ d ∈ l, c.order = d.order → c = d)

/-- Chain fixture: task A, duration 2 hours, no dependencies. -/
def taskA : Task := ⟨1, 1, none, none, some 2⟩

/-- Chain fixture: task B, duration 3 hours, depends on A. -/
def taskB : Task := ⟨2, 1, none, none, some 3⟩

/-- Chain fixture: task C, duration 4 hours, depends on B. -/
def taskC : Task := ⟨3, 1, none, none, some 4⟩

/-- Dependency edges of the linear chain: B depends on A, C depends on
B. -/
def chainEdges : List (Nat × Nat) := [(2, 1), (3, 2)]

/-- Store holding the three chain tasks in the given row order. -/
def chainDB (l : List Task) : DB := ⟨l, [], chainEdges⟩

/-- Fixture for the cross-column move counterexample: the moved task,
at position 0 of column 10. -/
def c2T : Task := ⟨1, 1, some 10, some 0, none⟩

/-- Fixture for the cross-column move counterexample: the remaining
task, at position 1 of column 10. -/
def c2U : Task := ⟨2, 1, some 10, some 1, none⟩

/-- Store for the cross-column move counterexample: column 10 holds two
tasks at positions 0 and 1, column 20 is empty. -/
def c2DB : DB := ⟨[c2T, c2U], [], []⟩

/-- Expected store after moving task 1 of c2DB to column 20: the moved
task sits at position 0 of column 20 while the task left behind in
column 10 keeps position 1, leaving a gap at position 0. -/
def c2DBafter : DB := ⟨[⟨1, 1, some 20, some 0, none⟩, c2U], [], []⟩

/-- Store for the column reorder counterexample: one project with two
columns at orders 0 and 1. -/
def c3DB : DB := ⟨[], [⟨1, 1, 0⟩, ⟨2, 1, 1⟩], []⟩

/-- Store for the duplicated-order evaluation: one project with a
single column at order 0. -/
def c5DB : DB := ⟨[], [⟨1, 1, 0⟩], []⟩

/-- Store for the empty-column position evaluation: one project with a
single empty column. -/
def c6DB : DB := ⟨[], [⟨1, 1, 0⟩], []⟩

/-- Store for the missing-column move counterexample: a single task
with no column assignment. -/
def c10DB : DB := ⟨[⟨1, 1, none, some 0, none⟩], [], []⟩

/-- Store for the dependency invariant witness: two tasks of one
project joined by one edge. -/
def c9DB : DB := ⟨[⟨1, 1, none, none, none⟩, ⟨2, 1, none, none, none⟩], [], [(1, 2)]⟩

/-- Store for the sentinel witness: one task with no estimate. -/
def c8DB : DB := ⟨[⟨1, 1, none, none, none⟩], [], []⟩

/-- Store for the missing-column move witness: one task sitting in the
single column 10; column 99 does not exist. -/
def w10DB : DB := ⟨[⟨1, 1, some 10, some 0, none⟩], [⟨10, 1, 0⟩], []⟩

/-- Store for the same-position move witness: three tasks at dense
positions 0, 1, 2 of column 5. -/
def w7DB : DB :=
  ⟨[⟨1, 1, some 5, some 0, none⟩, ⟨2, 1, some 5, some 1, none⟩,
    ⟨3, 1, some 5, some 2, none⟩], [⟨5, 1, 0⟩], []⟩

/-- Store for the cross-column move witness: two tasks in column 10 and
one task in column 20, all dense. -/
def w2DB : DB :=
  ⟨[⟨1, 1, some 10, some 0, none⟩, ⟨2, 1, some 10, some 1, none⟩,
    ⟨3, 1, some 20, some 0, none⟩], [⟨10, 1, 0⟩, ⟨20, 1, 1⟩], []⟩

/-- Store for the column reorder witness: one project with three
columns at dense orders 0, 1, 2. -/
def w3DB : DB := ⟨[], [⟨1, 1, 0⟩, ⟨2, 1, 1⟩, ⟨3, 1, 2⟩], []⟩

/-- Store for the column deletion witness: two columns of one project
and one task in the first column. -/
def w4DB : DB := ⟨[⟨1, 1, some 1, some 0, none⟩, ⟨2, 1, some 2, some 0, none⟩],
  [⟨1, 1, 0⟩, ⟨2, 1, 1⟩], []⟩

/-- Mapping a function that fixes every member of a list is the
identity on that list. -/
theorem map_eq_self_of_mem {α : Type} {f : α → α} {l : List α}
    (h : ∀ x ∈ l, f x = x) : l.map f = l := by
  induction l with
  | nil => rfl
  | cons x xs ih =>
    rw [List.map_cons, h x (List.mem_cons_self x xs),
      ih (fun y hy => h y (List.mem_cons_of_mem x hy))]

/-- Two members of a list with nodup ids carrying the same id are the
same row. -/
theorem task_eq_of_id {l : List Task} (h : (l.map Task.id).Nodup)
    {u t : Task} (hu : u ∈ l) (ht : t ∈ l) (heq : u.id = t.id) : u = t :=
  List.inj_on_of_nodup_map h hu ht heq

/-- Two column rows of a list with nodup ids carrying the same id are
the same row. -/
theorem col_eq_of_id {l : List BoardColumn} (h : (l.map BoardColumn.id).Nodup)
    {u t : BoardColumn} (hu : u ∈ l) (ht : t ∈ l) (heq : u.id = t.id) : u = t :=
  List.inj_on_of_nodup_map h hu ht heq

/-- C1: for the linear chain A, B, C with durations 2, 3, 4 hours the
claim expects the critical path [1, 2, 3] with total duration 9
regardless of the store order of the three rows. The code produces a
different result for every one of the six store orders and never the
claimed one: the pre-populated est, eft, lst and lft dictionaries
defeat the memoised recursion, so the forward pass believes stale
earliest-finish values for rows listed after their dependents, and the
backward pass processes predecessors before their successors have a
settled latest start, giving task A a spurious positive slack even in
the one order whose forward pass is right. -/
theorem c1_critical_path_chain_store_order_dependent :
    calculate_critical_path (chainDB [taskA, taskB, taskC]) 1 = ([2, 3], 9) ∧
    calculate_critical_path (chainDB [taskA, taskC, taskB]) 1 = ([], 5) ∧
    calculate_critical_path (chainDB [taskB, taskA, taskC]) 1 = ([2, 3], 7) ∧
    calculate_critical_path (chainDB [taskB, taskC, taskA]) 1 = ([2, 3], 7) ∧
    calculate_critical_path (chainDB [taskC, taskA, taskB]) 1 = ([], 5) ∧
    calculate_critical_path (chainDB [taskC, taskB, taskA]) 1 = ([3], 4) := by
  decide

/-- C5: create_board_column with the order omitted, on a project whose
single existing column has order 0, assigns order 0 to the new column
(the Python or clause treats the existing maximum 0 as absent and
restarts from -1 + 1), duplicating the existing order where the claim
expects max + 1 = 1. -/
theorem c5_create_column_duplicates_order_zero :
    ((create_board_column c5DB ⟨1, none⟩ 2).1.columns.map (fun c => c.order))
      = [0, 0] := by
  decide

/-- C6: create_task with the position omitted, targeting an existing
empty column, assigns position 1 instead of the claimed position 0:
the SQL max over the empty column is NULL, the Python or turns it into
0, and the code adds 1. -/
theorem c6_create_task_empty_column_position_one :
    (create_task c6DB ⟨1, some 1, none, none⟩ 5).2.position = some 1 ∧
    ((create_task c6DB ⟨1, some 1, none, none⟩ 5).1.tasks.map
      (fun t => t.position)) = [some 1] := by
  decide

/-- C2 counterexample: moving task 1 from column 10 (holding positions
0 and 1) to the empty column 20 succeeds, but the task left behind in
column 10 keeps position 1, so the source column does not hold the
dense position set claimed (position 0 of the one-element column 10 is
unoccupied). -/
theorem c2_source_column_not_compacted_cex :
    update_task_position c2DB 1 (some 20) 0 = some c2DBafter ∧
    (columnTasks c2DBafter 10).length = 1 ∧
    (∃ u ∈ columnTasks c2DBafter 10, u.position = some 1) ∧
    ¬ (∃ u ∈ columnTasks c2DBafter 10, u.position = some 0) := by
  refine ⟨by decide, by decide, ⟨c2U, by decide, by decide⟩, ?_⟩
  rintro ⟨u, hu, hpos⟩
  have : u = c2U := by
    have : columnTasks c2DBafter 10 = [c2U] := by decide
    rw [this] at hu
    simpa using hu
  subst this
  simp [c2U] at hpos

/-- C3 counterexample: in a project with columns at orders 0 and 1,
changing the first column from order 0 to order 1 moves the other
column from order 1 to order 0, although no integer order lies strictly
between 0 and 1; the set of shifted columns is the half-open interval
including the new order, not the open interval the claim describes. -/
theorem c3_shift_interval_cex :
    update_board_column c3DB 1 ⟨some 1⟩ = some ⟨[], [⟨1, 1, 1⟩, ⟨2, 1, 0⟩], []⟩ ∧
    (∃ c ∈ (⟨[], [⟨1, 1, 1⟩, ⟨2, 1, 0⟩], []⟩ : DB).columns, c.id = 2 ∧ c.order ≠ 1) ∧
    ¬ (∃ k : Int, 0 < k ∧ k < 1) := by
  refine ⟨by decide, ⟨⟨2, 1, 0⟩, by decide, by decide, by decide⟩, ?_⟩
  rintro ⟨k, h1, h2⟩
  omega

/-- C10 counterexample: the claim states that moving any existing task
toward a nonexistent column id sets the column of the task to that id.
For a task with no current column the assignment is skipped (the source
guards it by the truthiness of the old column id): the call succeeds
and clamps the position to 0, but the column stays NULL rather than
becoming 99. -/
theorem c10_null_column_keeps_null_cex :
    update_task_position c10DB 1 (some 99) 5 = some c10DB ∧
    ¬ (∃ db2, update_task_position c10DB 1 (some 99) 5 = some db2 ∧
        ∃ t2, get_task_by_id db2 1 = some t2 ∧ t2.columnId = some 99) := by
  refine ⟨by decide, ?_⟩
  rintro ⟨db2, h1, t2, h2, h3⟩
  have hdb : db2 = c10DB := by
    have h0 : update_task_position c10DB 1 (some 99) 5 = some c10DB := by decide
    rw [h0] at h1
    exact (Option.some.injEq _ _ ▸ h1).symm
  subst hdb
  have : t2 = ⟨1, 1, none, some 0, none⟩ := by
    have h0 : get_task_by_id c10DB 1 = some ⟨1, 1, none, some 0, none⟩ := by decide
    rw [h0] at h2
    exact (Option.some.injEq _ _ ▸ h2).symm
  subst this
  simp at h3

/-- Schedule field updates do not touch the id of a row. -/
theorem applySchedule_id (sd : ScheduleData) (u : Task) :
    (applySchedule sd u).id = u.id := by
  unfold applySchedule
  cases sd.estimatedHours <;> rfl

/-- Schedule field updates do not touch the project of a row. -/
theorem applySchedule_projectId (sd : ScheduleData) (u : Task) :
    (applySchedule sd u).projectId = u.projectId := by
  unfold applySchedule
  cases sd.estimatedHours <;> rfl

/-- C9: every operation that writes dependency edges preserves the edge
invariant. A schedule update only inserts edges whose dependency id
resolves to an existing task of the same project distinct from the
scheduled task, and a task deletion removes every edge having the
deleted task on either side, so if every edge of the store joins two
existing tasks of one project and no task depends on itself, the same
holds after any update_task_schedule and after any delete_task. -/
theorem c9_dependency_edge_invariant (db : DB) (taskId : Nat) (sd : ScheduleData)
    (hinv : DepInvariant db) :
    (∀ db2, update_task_schedule db taskId sd = some db2 → DepInvariant db2) ∧
    DepInvariant (delete_task db taskId).2 := by
  constructor
  · intro db2 h2
    unfold update_task_schedule at h2
    cases hfind : get_task_by_id db taskId with
    | none => rw [hfind] at h2; simp at h2
    | some t =>
      rw [hfind] at h2
      simp only [Option.some.injEq] at h2
      subst h2
      intro e he
      have htmem : t ∈ db.tasks := List.mem_of_find?_eq_some hfind
      have htid : t.id = taskId := by simpa using List.find?_some hfind
      have hwit : ∀ a : Task, a ∈ db.tasks →
          ∃ a2 ∈ db.tasks.map (fun u => if u.id == taskId then applySchedule sd u else u),
            a2.id = a.id ∧ a2.projectId = a.projectId := by
        intro a ha
        refine ⟨_, List.mem_map_of_mem _ ha, ?_, ?_⟩ <;>
          by_cases hc : a.id == taskId <;>
            simp [hc, applySchedule_id, applySchedule_projectId]
      cases hdeps : sd.dependencies with
      | none =>
        rw [hdeps] at he
        obtain ⟨a, ha, b, hb, h1, hb2, h3, h4⟩ := hinv e he
        obtain ⟨a2, ha2, ha2id, ha2p⟩ := hwit a ha
        obtain ⟨b2, hbm2, hb2id, hb2p⟩ := hwit b hb
        exact ⟨a2, ha2, b2, hbm2, by rw [ha2id, h1], by rw [hb2id, hb2],
          by rw [ha2p, hb2p, h3], h4⟩
      | some deps =>
        rw [hdeps] at he
        rcases List.mem_append.mp he with he1 | he1
        · have he2 := (List.mem_filter.mp he1).1
          obtain ⟨a, ha, b, hb, h1, hb2, h3, h4⟩ := hinv e he2
          obtain ⟨a2, ha2, ha2id, ha2p⟩ := hwit a ha
          obtain ⟨b2, hbm2, hb2id, hb2p⟩ := hwit b hb
          exact ⟨a2, ha2, b2, hbm2, by rw [ha2id, h1], by rw [hb2id, hb2],
            by rw [ha2p, hb2p, h3], h4⟩
        · obtain ⟨d, hd, hsE⟩ := List.mem_filterMap.mp he1
          cases hdf : get_task_by_id db d with
          | none => simp [scheduleEdge, hdf] at hsE
          | some depTask =>
            simp only [scheduleEdge, hdf] at hsE
            split_ifs at hsE with hcnd
            · have he3 : e = (taskId, d) := by simpa using hsE.symm
              subst he3
              have hdm : depTask ∈ db.tasks := List.mem_of_find?_eq_some hdf
              have hdid : depTask.id = d := by simpa using List.find?_some hdf
              obtain ⟨a2, ha2, ha2id, ha2p⟩ := hwit t htmem
              obtain ⟨b2, hbm2, hb2id, hb2p⟩ := hwit depTask hdm
              exact ⟨a2, ha2, b2, hbm2, by rw [ha2id, htid], by rw [hb2id, hdid],
                by rw [ha2p, hb2p, hcnd.1], Ne.symm hcnd.2⟩
  · unfold delete_task
    cases hfind : get_task_by_id db taskId with
    | none => exact hinv
    | some t =>
      intro e he
      have he1 := List.mem_filter.mp he
      obtain ⟨a, ha, b, hb, h1, h2, h3, h4⟩ := hinv e he1.1
      have hcond : e.1 ≠ taskId ∧ e.2 ≠ taskId := by simpa using he1.2
      refine ⟨a, List.mem_filter.mpr ⟨ha, ?_⟩, b, List.mem_filter.mpr ⟨hb, ?_⟩,
        h1, h2, h3, h4⟩
      · simp [h1, hcond.1]
      · simp [h2, hcond.2]

/-- Witness for C9 at a concrete store with one valid edge. -/
theorem c9_dependency_edge_invariant_witness :
    DepInvariant c9DB ∧
    ((∀ db2, update_task_schedule c9DB 1 ⟨some 7, some [2, 1, 99]⟩ = some db2 →
        DepInvariant db2) ∧
      DepInvariant (delete_task c9DB 1).2) :=
  ⟨by unfold DepInvariant; decide,
    c9_dependency_edge_invariant c9DB 1 ⟨some 7, some [2, 1, 99]⟩
      (by unfold DepInvariant; decide)⟩

/-- C8: calculate_critical_path returns the sentinel of an empty path
and zero duration when no task of the project has a positive estimate
(every estimate is NULL or 0), and likewise when every task of the
project has a non-empty dependency set, so that no start task exists. -/
theorem c8_cpm_no_schedule_sentinel (db : DB) (pid : Nat)
    (h : (∀ t ∈ projTasks db pid, t.estimatedHours = none ∨ t.estimatedHours = some 0)
       ∨ (∀ t ∈ projTasks db pid, dependencies db t ≠ [])) :
    calculate_critical_path db pid = ([], 0) := by
  unfold calculate_critical_path
  rcases h with h | h
  · have hany : ((projTasks db pid).any fun t => hoursTruthy t.estimatedHours) = false := by
      rw [List.any_eq_false]
      intro t ht
      rcases h t ht with h0 | h0 <;> simp [h0, hoursTruthy]
    simp [hany]
  · cases hany : ((projTasks db pid).any fun t => hoursTruthy t.estimatedHours) with
    | false => simp [hany]
    | true =>
      have hstart : ((projTasks db pid).filter fun t => (dependencies db t).isEmpty) = [] := by
        rw [List.filter_eq_nil_iff]
        intro t ht
        simp only [List.isEmpty_iff]
        exact h t ht
      simp [hany, hstart]

/-- Witness for C8 at a concrete store with one unestimated task. -/
theorem c8_cpm_no_schedule_sentinel_witness :
    (∀ t ∈ projTasks c8DB 1, t.estimatedHours = none ∨ t.estimatedHours = some 0) ∧
    calculate_critical_path c8DB 1 = ([], 0) :=
  ⟨by decide, c8_cpm_no_schedule_sentinel c8DB 1 (Or.inl (by decide))⟩

/-- Clamp moves do not touch the id of a row. -/
theorem moveClamp_id (tid : Nat) (mc : Option Nat) (n : Int) (u : Task) :
    (moveClamp tid mc n u).id = u.id := by
  unfold moveClamp
  split <;> rfl

/-- C10 (amended): moving a task toward a column id that no task
references (in particular a nonexistent column) does not fail: the
snapshot of the target column is empty, so any requested position is
clamped to 0; the column of the moved task becomes the missing id when
the task had a column and stays NULL when it had none; other rows are
untouched. -/
theorem c10_move_to_missing_column (db : DB) (tid : Nat) (t : Task) (B : Nat) (p : Int)
    (ht : get_task_by_id db tid = some t)
    (_hnocol : get_column_by_id db B = none)
    (hnotask : ∀ u ∈ db.tasks, u.columnId ≠ some B)
    (hp : 0 ≤ p) :
    ∃ db2, update_task_position db tid (some B) p = some db2 ∧
      get_task_by_id db2 tid =
        some { t with columnId := if t.columnId.isSome then some B else none,
                      position := some 0 } ∧
      ∀ u ∈ db.tasks, u.id ≠ tid → u ∈ db2.tasks := by
  have ht2 : db.tasks.find? (fun u : Task => u.id == tid) = some t := ht
  have htm : t ∈ db.tasks := List.mem_of_find?_eq_some ht2
  have htid : t.id = tid := by simpa using List.find?_some ht2
  have htB : t.columnId ≠ some B := hnotask t htm
  have hfilter : db.tasks.filter (fun u => u.columnId == some B) = [] := by
    rw [List.filter_eq_nil_iff]
    intro u hu
    simpa using hnotask u hu
  have hmc : (if (some B ≠ t.columnId ∧ t.columnId.isSome) then some B else t.columnId)
      = (if t.columnId.isSome then some B else none) := by
    cases hoc : t.columnId with
    | none => simp
    | some a =>
      have : some B ≠ (some a : Option Nat) := by rw [← hoc]; exact Ne.symm htB
      simp [this]
  have heval : update_task_position db tid (some B) p =
      some { db with tasks := (db.tasks.map (moveClamp tid (if t.columnId.isSome then some B else none) 0) : List Task) } := by
    unfold update_task_position
    rw [ht]
    simp only [hfilter, sortByPos, List.insertionSort, List.length_nil, Nat.cast_zero,
      hmc, hp, ge_iff_le, if_pos]
  refine ⟨_, heval, ?_, ?_⟩
  · unfold get_task_by_id
    have hcomp : ((fun u : Task => u.id == tid) ∘
        (moveClamp tid (if t.columnId.isSome then some B else none) 0))
        = fun u : Task => u.id == tid := by
      funext u
      simp [Function.comp, moveClamp_id]
    rw [List.find?_map, hcomp]
    have : db.tasks.find? (fun u : Task => u.id == tid) = some t := ht
    rw [this]
    simp [moveClamp, htid]
  · intro u hu hne
    have hfix : moveClamp tid (if t.columnId.isSome then some B else none) 0 u = u := by
      unfold moveClamp
      rw [if_neg]
      simp [hne]
    have := List.mem_map_of_mem
      (moveClamp tid (if t.columnId.isSome then some B else none) 0) hu
    rw [hfix] at this
    exact this

/-- Witness for C10 at a concrete store: the task of column 10 is moved
toward the nonexistent column 99 at requested position 7 and ends at
position 0 of column 99. -/
theorem c10_move_to_missing_column_witness :
    (∀ u ∈ w10DB.tasks, u.columnId ≠ some 99) ∧
    (∃ db2, update_task_position w10DB 1 (some 99) 7 = some db2 ∧
      get_task_by_id db2 1 = some ⟨1, 1, some 99, some 0, none⟩ ∧
      ∀ u ∈ w10DB.tasks, u.id ≠ 1 → u ∈ db2.tasks) :=
  ⟨by decide, c10_move_to_missing_column w10DB 1 ⟨1, 1, some 10, some 0, none⟩ 99 7
    (by decide) (by decide) (by decide) (by decide)⟩

/-- Characterisation of a dense column snapshot: when the rows of a
duplicate-free list carry exactly the positions 0..n-1, the row at
index i of the list ordered by position carries position i. -/
theorem sortByPos_get_position (l : List Task) (hd : DensePositions l) (hnd : l.Nodup) :
    ∀ i : Nat, ∀ h : i < (sortByPos l).length,
      ((sortByPos l).get ⟨i, h⟩).position = some (i : Int) := by
  have hperm : (sortByPos l).Perm l := List.perm_insertionSort posLE l
  have hlen : (sortByPos l).length = l.length := hperm.length_eq
  have hndL : (sortByPos l).Nodup := hperm.nodup_iff.mpr hnd
  have hsorted : List.Sorted posLE (sortByPos l) := List.sorted_insertionSort posLE l
  have hpair := List.pairwise_iff_get.mp hsorted
  obtain ⟨hd1, hd2, hd3⟩ := hd
  have hval : ∀ i : Nat, ∀ h : i < (sortByPos l).length, ∃ k : Int,
      ((sortByPos l).get ⟨i, h⟩).position = some k ∧ 0 ≤ k ∧ k < (sortByPos l).length := by
    intro i h
    have hmem : (sortByPos l).get ⟨i, h⟩ ∈ l :=
      hperm.mem_iff.mp (List.get_mem (sortByPos l) i h)
    obtain ⟨k, hk, h0, h1⟩ := hd1 _ hmem
    refine ⟨k, hk, h0, ?_⟩
    rw [hlen]
    exact h1
  have hstrict : ∀ i j : Nat, ∀ hi : i < (sortByPos l).length,
      ∀ hj : j < (sortByPos l).length, i < j → ∀ ki kj : Int,
      ((sortByPos l).get ⟨i, hi⟩).position = some ki →
      ((sortByPos l).get ⟨j, hj⟩).position = some kj → ki < kj := by
    intro i j hi hj hij ki kj hki hkj
    have hle : posLE ((sortByPos l).get ⟨i, hi⟩) ((sortByPos l).get ⟨j, hj⟩) :=
      hpair ⟨i, hi⟩ ⟨j, hj⟩ hij
    have hle2 : ki ≤ kj := by
      unfold posLE posLEb at hle
      rw [hki, hkj] at hle
      simpa using hle
    rcases lt_or_eq_of_le hle2 with hcase | hcase
    · exact hcase
    · exfalso
      have heq : ((sortByPos l).get ⟨i, hi⟩).position = ((sortByPos l).get ⟨j, hj⟩).position := by
        rw [hki, hkj, hcase]
      have hmi : (sortByPos l).get ⟨i, hi⟩ ∈ l :=
        hperm.mem_iff.mp (List.get_mem (sortByPos l) i hi)
      have hmj : (sortByPos l).get ⟨j, hj⟩ ∈ l :=
        hperm.mem_iff.mp (List.get_mem (sortByPos l) j hj)
      have hsame := hd3 _ hmi _ hmj heq
      have hfin : (⟨i, hi⟩ : Fin (sortByPos l).length) = ⟨j, hj⟩ :=
        List.nodup_iff_injective_get.mp hndL hsame
      have : i = j := by simpa using hfin
      omega
  intro i
  induction i using Nat.strong_induction_on with
  | _ i IH =>
    intro h
    obtain ⟨ki, hki, h0, h1⟩ := hval i h
    have hlow : (i : Int) ≤ ki := by
      cases i with
      | zero => exact_mod_cast h0
      | succ i2 =>
        have hi2 : i2 < (sortByPos l).length := Nat.lt_of_succ_lt h
        have hk2 := IH i2 (Nat.lt_succ_self i2) hi2
        have := hstrict i2 (i2 + 1) hi2 h (Nat.lt_succ_self i2) (i2 : Int) ki hk2 hki
        push_cast
        omega
    have hup : ki ≤ (i : Int) := by
      have hibound : (i : Int) < l.length := by
        rw [← hlen]
        exact_mod_cast h
      obtain ⟨u, hu, hupos⟩ := hd2 (i : Int) (by positivity) hibound
      obtain ⟨j, hj⟩ := List.mem_iff_get.mp (hperm.mem_iff.mpr hu)
      by_cases hcmp : j.val < i
      · exfalso
        have hji := IH j.val hcmp j.isLt
        have hjfin : (⟨j.val, j.isLt⟩ : Fin (sortByPos l).length) = j := Fin.ext rfl
        rw [hjfin, hj, hupos] at hji
        have : (i : Int) = (j.val : Int) := Option.some.inj hji
        omega
      · rcases Nat.eq_or_lt_of_le (Nat.not_lt.mp hcmp) with he | hlt2
        · have hfin : (⟨i, h⟩ : Fin (sortByPos l).length) = j := Fin.ext he
          rw [hfin, hj, hupos] at hki
          have : (i : Int) = ki := Option.some.inj hki
          omega
        · have hjpos : ((sortByPos l).get ⟨j.val, j.isLt⟩).position = some (i : Int) := by
            have hjfin : (⟨j.val, j.isLt⟩ : Fin (sortByPos l).length) = j := Fin.ext rfl
            rw [hjfin, hj]
            exact hupos
          have := hstrict i j.val h j.isLt hlt2 ki (i : Int) hki hjpos
          omega
    rw [hki, le_antisymm hup hlow]

/-- Index of the first row satisfying a predicate, when the row at a
given index satisfies it and no earlier row does. -/
theorem findIdx?_eq_some_of_get {α : Type} (p : α → Bool) (l : List α) (j : Nat)
    (hj : j < l.length) (hpj : p (l.get ⟨j, hj⟩) = true)
    (hlt : ∀ i : Nat, ∀ hi : i < l.length, i < j → p (l.get ⟨i, hi⟩) = false) :
    l.findIdx? p = some j := by
  induction l generalizing j with
  | nil => simp at hj
  | cons x xs ih =>
    rw [List.findIdx?_cons]
    cases j with
    | zero =>
      have : p x = true := by simpa using hpj
      rw [if_pos this]
    | succ j2 =>
      have hx : p x = false := by
        have := hlt 0 (by simp) (Nat.succ_pos j2)
        simpa using this
      rw [if_neg (by simp [hx]), List.findIdx?_succ]
      have hrec := ih j2 (by simpa using hj) (by simpa using hpj) (fun i hi hij => by
        have := hlt (i + 1) (by simpa using hi) (Nat.succ_lt_succ hij)
        simpa using this)
      rw [hrec]
      rfl

/-- Unfolded form of the target-column query of update_task_position. -/
theorem columnTasks_eq (db : DB) (c : Nat) :
    db.tasks.filter (fun u => u.columnId == some c) = columnTasks db c := rfl

/-- C7: moving a task to its own current column and its own current
position leaves the store unchanged (in particular every position of
the column): the clamp branch does not fire because the current
position lies inside the column, the column is unchanged, the ordered
snapshot locates the task at the index equal to its position, and the
equal-position branch touches no row. -/
theorem c7_move_to_own_position_noop (db : DB) (tid : Nat) (t : Task) (c : Nat) (p0 : Int)
    (hids : (db.tasks.map Task.id).Nodup)
    (ht : get_task_by_id db tid = some t)
    (hcol : t.columnId = some c)
    (hpos : t.position = some p0)
    (hdense : DensePositions (columnTasks db c)) :
    update_task_position db tid (some c) p0 = some db := by
  have ht2 : db.tasks.find? (fun u : Task => u.id == tid) = some t := ht
  have htm : t ∈ db.tasks := List.mem_of_find?_eq_some ht2
  have htid : t.id = tid := by simpa using List.find?_some ht2
  have hndtasks : db.tasks.Nodup := List.Nodup.of_map Task.id hids
  have hndc : (columnTasks db c).Nodup := (List.filter_sublist db.tasks).nodup hndtasks
  have hchar := sortByPos_get_position (columnTasks db c) hdense hndc
  have htc : t ∈ columnTasks db c := by
    unfold columnTasks
    rw [List.mem_filter]
    exact ⟨htm, by simp [hcol]⟩
  have hperm : (sortByPos (columnTasks db c)).Perm (columnTasks db c) :=
    List.perm_insertionSort _ _
  have htL : t ∈ sortByPos (columnTasks db c) := hperm.mem_iff.mpr htc
  obtain ⟨j, hjget⟩ := List.mem_iff_get.mp htL
  have hjpos : t.position = some (j.val : Int) := by
    have hx := hchar j.val j.isLt
    rw [show (⟨j.val, j.isLt⟩ : Fin (sortByPos (columnTasks db c)).length) = j from
      Fin.ext rfl, hjget] at hx
    exact hx
  have hp0j : p0 = (j.val : Int) := by
    rw [hpos] at hjpos
    exact Option.some.inj hjpos
  have hndidL : ((sortByPos (columnTasks db c)).map Task.id).Nodup := by
    have h1 : ((columnTasks db c).map Task.id).Nodup :=
      ((List.filter_sublist db.tasks).map Task.id).nodup hids
    exact (hperm.map Task.id).nodup_iff.mpr h1
  have hfind : (sortByPos (columnTasks db c)).findIdx? (fun u => u.id == tid) = some j.val := by
    apply findIdx?_eq_some_of_get (fun u => u.id == tid) _ j.val j.isLt
    · rw [show (⟨j.val, j.isLt⟩ : Fin (sortByPos (columnTasks db c)).length) = j from
        Fin.ext rfl, hjget]
      simp [htid]
    · intro i hi hij
      rcases Bool.eq_false_or_eq_true
        (((sortByPos (columnTasks db c)).get ⟨i, hi⟩).id == tid) with hb | hb
      · exfalso
        have hidq : ((sortByPos (columnTasks db c)).get ⟨i, hi⟩).id = t.id := by
          rw [htid]
          simpa using hb
        have heqt : (sortByPos (columnTasks db c)).get ⟨i, hi⟩ = t :=
          List.inj_on_of_nodup_map hndidL (List.get_mem _ i hi) htL hidq
        have hiposn := hchar i hi
        rw [heqt, hpos] at hiposn
        have : p0 = (i : Int) := Option.some.inj hiposn
        omega
      · exact hb
  have hjlt : ¬ ((j.val : Int) ≥ ((sortByPos (columnTasks db c)).length : Int)) := by
    have := j.isLt
    omega
  unfold update_task_position
  rw [ht]
  simp only [hcol, columnTasks_eq, hp0j]
  rw [if_neg hjlt]
  rw [if_neg (by simp : ¬ ((some c : Option Nat) ≠ some c))]
  rw [hfind]
  simp only [lt_irrefl, if_false, ite_self]
  have hmap : db.tasks.map (moveColOnly tid (some c)) = db.tasks := by
    apply map_eq_self_of_mem
    intro u hu
    unfold moveColOnly
    by_cases hb : (u.id == tid) = true
    · rw [if_pos hb]
      have hut : u = t := task_eq_of_id hids hu htm (by rw [htid]; simpa using hb)
      subst hut
      rw [← hcol]
    · rw [if_neg (by simp_all)]
  rw [hmap]

/-- Witness for C7 at a concrete store: task 2 of column 5 moved to
column 5 at its own position 1 leaves the store unchanged. -/
theorem c7_move_to_own_position_noop_witness :
    DensePositions (columnTasks w7DB 5) ∧
    update_task_position w7DB 2 (some 5) 1 = some w7DB := by
  have hd : DensePositions (columnTasks w7DB 5) := by
    refine ⟨?_, ?_, ?_⟩
    · intro u hu
      have hl : columnTasks w7DB 5 = [⟨1, 1, some 5, some 0, none⟩,
          ⟨2, 1, some 5, some 1, none⟩, ⟨3, 1, some 5, some 2, none⟩] := by decide
      rw [hl] at hu
      simp only [List.mem_cons, List.not_mem_nil, or_false] at hu
      rcases hu with h | h | h <;> subst h
      · exact ⟨0, rfl, by decide, by decide⟩
      · exact ⟨1, rfl, by decide, by decide⟩
      · exact ⟨2, rfl, by decide, by decide⟩
    · intro k h1 h2
      have hlen : ((columnTasks w7DB 5).length : Int) = 3 := by decide
      rw [hlen] at h2
      have : k = 0 ∨ k = 1 ∨ k = 2 := by omega
      rcases this with h | h | h <;> subst h
      · exact ⟨⟨1, 1, some 5, some 0, none⟩, by decide, rfl⟩
      · exact ⟨⟨2, 1, some 5, some 1, none⟩, by decide, rfl⟩
      · exact ⟨⟨3, 1, some 5, some 2, none⟩, by decide, rfl⟩
    · decide
  exact ⟨hd, c7_move_to_own_position_noop w7DB 2 ⟨2, 1, some 5, some 1, none⟩ 5 1
    (by decide) (by decide) rfl rfl hd⟩

/-- Count of a disjunction of two predicates that never hold together
on the list. -/
theorem countP_or_disjoint {α : Type} (p q : α → Bool) (l : List α)
    (hdisj : ∀ x ∈ l, ¬(p x = true ∧ q x = true)) :
    l.countP (fun x => p x || q x) = l.countP p + l.countP q := by
  induction l with
  | nil => simp
  | cons x xs ih =>
    have hx := hdisj x (List.mem_cons_self x xs)
    have hxs := ih (fun y hy => hdisj y (List.mem_cons_of_mem x hy))
    by_cases hp : p x = true <;> by_cases hq : q x = true
    · exact absurd ⟨hp, hq⟩ hx
    · simp [List.countP_cons, hp, hq, hxs]
      omega
    · simp [List.countP_cons, hp, hq, hxs]
      omega
    · simp [List.countP_cons, hp, hq, hxs]

/-- Count of the rows carrying a given key, when the keys of the list
are duplicate-free and one member carries the key. -/
theorem countP_key_eq_one {α β : Type} [DecidableEq β] (key : α → β) (l : List α)
    (hnd : (l.map key).Nodup) (t : α) (htm : t ∈ l) (k : β) (hk : key t = k) :
    l.countP (fun u => key u == k) = 1 := by
  have h1 : l.countP (fun u => key u == k) = (l.map key).count k := by
    rw [List.count_eq_countP, List.countP_map]
    rfl
  rw [h1]
  apply List.count_eq_one_of_mem hnd
  rw [← hk]
  exact List.mem_map_of_mem key htm

/-- Density of a column after one row is inserted at slot q of a dense
column and the rows at or after q are shifted one slot up. The inserted
row and the images of the old rows are described only through their
membership and positions, so the lemma covers both the clamp branch
(insertion at the end, no row shifted) and the proper insertion. -/
theorem densePositions_of_shift (old new : List Task) (tq : Task) (q : Int)
    (g : Task → Task)
    (hd : DensePositions old)
    (hlen : new.length = old.length + 1)
    (hmem : ∀ x, x ∈ new ↔ x = tq ∨ ∃ u ∈ old, x = g u)
    (htqpos : tq.position = some q)
    (hq0 : 0 ≤ q) (hq1 : q ≤ (old.length : Int))
    (hgpos : ∀ u ∈ old, ∀ m : Int, u.position = some m → 0 ≤ m → m < (old.length : Int) →
      (g u).position = some (if q ≤ m then m + 1 else m)) :
    DensePositions new := by
  obtain ⟨hd1, hd2, hd3⟩ := hd
  have hgpos2 : ∀ u ∈ old, ∃ m : Int, u.position = some m ∧ 0 ≤ m ∧ m < (old.length : Int) ∧
      (g u).position = some (if q ≤ m then m + 1 else m) := by
    intro u hu
    obtain ⟨m, hm, h0, h1⟩ := hd1 u hu
    exact ⟨m, hm, h0, h1, hgpos u hu m hm h0 h1⟩
  refine ⟨?_, ?_, ?_⟩
  · intro x hx
    rcases (hmem x).mp hx with hxe | ⟨u, hu, hxe⟩
    · subst hxe
      refine ⟨q, htqpos, hq0, ?_⟩
      rw [hlen]
      push_cast
      omega
    · subst hxe
      obtain ⟨m, _, h0, h1, hgp⟩ := hgpos2 u hu
      refine ⟨if q ≤ m then m + 1 else m, hgp, ?_, ?_⟩
      · split <;> omega
      · rw [hlen]
        push_cast
        split <;> omega
  · intro k h0 hk
    rw [hlen] at hk
    push_cast at hk
    rcases lt_trichotomy k q with hc | hc | hc
    · obtain ⟨u, hu, hupos⟩ := hd2 k h0 (by omega)
      refine ⟨g u, (hmem (g u)).mpr (Or.inr ⟨u, hu, rfl⟩), ?_⟩
      obtain ⟨m, hm, hm0, hm1, hgp⟩ := hgpos2 u hu
      rw [hm] at hupos
      have hmk : m = k := Option.some.inj hupos
      rw [hgp, hmk, if_neg (by omega)]
    · exact ⟨tq, (hmem tq).mpr (Or.inl rfl), by rw [htqpos, hc]⟩
    · obtain ⟨u, hu, hupos⟩ := hd2 (k - 1) (by omega) (by omega)
      refine ⟨g u, (hmem (g u)).mpr (Or.inr ⟨u, hu, rfl⟩), ?_⟩
      obtain ⟨m, hm, hm0, hm1, hgp⟩ := hgpos2 u hu
      rw [hm] at hupos
      have hmk : m = k - 1 := Option.some.inj hupos
      rw [hgp, hmk, if_pos (by omega)]
      congr 1
      omega
  · intro x hx y hy hxy
    rcases (hmem x).mp hx with hxe | ⟨u, hu, hxe⟩ <;>
      rcases (hmem y).mp hy with hye | ⟨v, hv, hye⟩
    · rw [hxe, hye]
    · exfalso
      subst hxe
      subst hye
      obtain ⟨m, _, hm0, hm1, hgp⟩ := hgpos2 v hv
      rw [htqpos, hgp] at hxy
      have := Option.some.inj hxy
      rcases le_or_lt q m with hcase | hcase
      · rw [if_pos hcase] at this
        omega
      · rw [if_neg (by omega)] at this
        omega
    · exfalso
      subst hxe
      subst hye
      obtain ⟨m, _, hm0, hm1, hgp⟩ := hgpos2 u hu
      rw [htqpos, hgp] at hxy
      have := Option.some.inj hxy.symm
      rcases le_or_lt q m with hcase | hcase
      · rw [if_pos hcase] at this
        omega
      · rw [if_neg (by omega)] at this
        omega
    · subst hxe
      subst hye
      obtain ⟨m, hm, hm0, hm1, hgp⟩ := hgpos2 u hu
      obtain ⟨m2, hm2, hm20, hm21, hgp2⟩ := hgpos2 v hv
      rw [hgp, hgp2] at hxy
      have hmm := Option.some.inj hxy
      have : m = m2 := by
        rcases le_or_lt q m with hc1 | hc1 <;> rcases le_or_lt q m2 with hc2 | hc2 <;>
          simp only [if_pos, if_neg, hc1, hc2] at hmm <;> omega
      rw [this] at hm
      have := hd3 u hu v hv (by rw [hm, hm2])
      rw [this]

/-- Incoming shifts do not touch the id of a row. -/
theorem shiftIn_id (p : Int) (u : Task) : (shiftIn p u).id = u.id := by
  unfold shiftIn
  cases u.position
  · rfl
  · dsimp only
    split <;> rfl

/-- Incoming shifts do not touch the column of a row. -/
theorem shiftIn_columnId (p : Int) (u : Task) : (shiftIn p u).columnId = u.columnId := by
  unfold shiftIn
  cases u.position
  · rfl
  · dsimp only
    split <;> rfl

/-- Position of a row after an incoming shift. -/
theorem shiftIn_position (p : Int) (u : Task) (m : Int) (hm : u.position = some m) :
    (shiftIn p u).position = some (if p ≤ m then m + 1 else m) := by
  unfold shiftIn
  rw [hm]
  dsimp only
  split <;> simp_all

/-- Cross moves do not touch the id of a row. -/
theorem moveCross_id (tid : Nat) (mc : Option Nat) (p : Int) (nc : Option Nat) (u : Task) :
    (moveCross tid mc p nc u).id = u.id := by
  unfold moveCross
  split
  · rfl
  · split
    · exact shiftIn_id p u
    · rfl

/-- Common conclusions of the two cross-column branches of
update_task_position (clamp to the end, or insertion with a shift):
the source column keeps its other rows at untouched positions, the
target column gains the moved row and stays dense, and the moved row
carries the requested (or clamped) position. The per-row writes are
abstracted by the full map F and the target-column shift g. -/
theorem cross_move_conclusions (db : DB) (tid : Nat) (t : Task) (A B : Nat)
    (F g : Task → Task) (q : Int)
    (hids : (db.tasks.map Task.id).Nodup)
    (htm : t ∈ db.tasks) (htid : t.id = tid) (hcolA : t.columnId = some A)
    (hAB : A ≠ B)
    (hdB : DensePositions (columnTasks db B))
    (hq0 : 0 ≤ q) (hq1 : q ≤ ((columnTasks db B).length : Int))
    (hFid : ∀ u, (F u).id = u.id)
    (hFt : F t = { t with columnId := some B, position := some q })
    (hFo : ∀ u, u.id ≠ tid → F u = if u.columnId == some B then g u else u)
    (hgcol : ∀ u, (g u).columnId = u.columnId)
    (hgpos : ∀ u ∈ columnTasks db B, ∀ m : Int, u.position = some m → 0 ≤ m →
      m < ((columnTasks db B).length : Int) → (g u).position = some (if q ≤ m then m + 1 else m)) :
    columnTasks { db with tasks := db.tasks.map F } A =
      (columnTasks db A).filter (fun u => u.id != tid) ∧
    (columnTasks { db with tasks := db.tasks.map F } A).length + 1 =
      (columnTasks db A).length ∧
    (columnTasks { db with tasks := db.tasks.map F } B).length =
      (columnTasks db B).length + 1 ∧
    DensePositions (columnTasks { db with tasks := db.tasks.map F } B) ∧
    get_task_by_id { db with tasks := db.tasks.map F } tid =
      some { t with columnId := some B, position := some q } := by
  have hBA : (some B : Option Nat) ≠ some A := by simpa using Ne.symm hAB
  have htA : t ∈ columnTasks db A := by
    unfold columnTasks
    rw [List.mem_filter]
    exact ⟨htm, by simp [hcolA]⟩
  have hndA : ((columnTasks db A).map Task.id).Nodup :=
    ((List.filter_sublist db.tasks).map Task.id).nodup hids
  have hpredA : ∀ u ∈ db.tasks,
      ((F u).columnId == some A) = (!(u.id == tid) && (u.columnId == some A)) := by
    intro u hu
    by_cases hid : u.id = tid
    · have hut : u = t := task_eq_of_id hids hu htm (by rw [hid, htid])
      subst hut
      rw [hFt]
      simp [hid, Ne.symm hAB]
    · rw [hFo u hid]
      by_cases hcb : u.columnId = some B
      · rw [if_pos (by simp [hcb])]
        simp [hgcol, hid]
      · rw [if_neg (by simp [hcb])]
        simp [hid]
  have hpredB : ∀ u ∈ db.tasks,
      ((F u).columnId == some B) = ((u.id == tid) || (u.columnId == some B)) := by
    intro u hu
    by_cases hid : u.id = tid
    · have hut : u = t := task_eq_of_id hids hu htm (by rw [hid, htid])
      subst hut
      rw [hFt]
      simp [hid]
    · rw [hFo u hid]
      by_cases hcb : u.columnId = some B
      · rw [if_pos (by simp [hcb])]
        simp [hgcol, hid, hcb]
      · rw [if_neg (by simp [hcb])]
        simp [hid, hcb]
  have hctA : columnTasks { db with tasks := db.tasks.map F } A =
      (columnTasks db A).filter (fun u => u.id != tid) := by
    unfold columnTasks
    have hfcA : List.filter ((fun v : Task => v.columnId == some A) ∘ F) db.tasks =
        List.filter (fun u => !(u.id == tid) && (u.columnId == some A)) db.tasks :=
      List.filter_congr (fun x hx => hpredA x hx)
    rw [List.filter_map, hfcA, List.filter_filter]
    have hpe : ∀ u ∈ db.tasks,
        ((!(u.id == tid)) && (u.columnId == some A)) =
        ((u.id != tid) && (u.columnId == some A)) := by
      intro u _
      rfl
    rw [List.filter_congr hpe]
    apply map_eq_self_of_mem
    intro u hu
    have hu2 := List.mem_filter.mp hu
    have hid : u.id ≠ tid := by
      have := hu2.2
      simp at this
      exact this.1
    have hcolu : u.columnId = some A := by
      have := hu2.2
      simp at this
      exact this.2
    rw [hFo u hid, if_neg (by simp [hcolu, hAB])]
  have hctB : columnTasks { db with tasks := db.tasks.map F } B =
      (db.tasks.filter (fun u => (u.id == tid) || (u.columnId == some B))).map F := by
    unfold columnTasks
    have hfcB : List.filter ((fun v : Task => v.columnId == some B) ∘ F) db.tasks =
        List.filter (fun u => (u.id == tid) || (u.columnId == some B)) db.tasks :=
      List.filter_congr (fun x hx => hpredB x hx)
    rw [List.filter_map, hfcB]
  have hcount1 : db.tasks.countP (fun u => u.id == tid) = 1 :=
    countP_key_eq_one Task.id db.tasks hids t htm tid htid
  have hdisj : ∀ x ∈ db.tasks, ¬((x.id == tid) = true ∧ (x.columnId == some B) = true) := by
    intro x hx hcon
    have hxid : x.id = tid := by simpa using hcon.1
    have hxt : x = t := task_eq_of_id hids hx htm (by rw [hxid, htid])
    rw [hxt, hcolA] at hcon
    exact absurd (by simpa using hcon.2) hAB
  have hlenB : (columnTasks { db with tasks := db.tasks.map F } B).length =
      (columnTasks db B).length + 1 := by
    rw [hctB, List.length_map, ← List.countP_eq_length_filter,
      countP_or_disjoint _ _ _ hdisj, hcount1]
    rw [List.countP_eq_length_filter]
    have : db.tasks.filter (fun u => u.columnId == some B) = columnTasks db B := rfl
    rw [this]
    omega
  have hmemB : ∀ x, x ∈ columnTasks { db with tasks := db.tasks.map F } B ↔
      x = { t with columnId := some B, position := some q } ∨
      ∃ u ∈ columnTasks db B, x = g u := by
    intro x
    rw [hctB, List.mem_map]
    constructor
    · rintro ⟨u, hu, hux⟩
      have hu2 := List.mem_filter.mp hu
      by_cases hid : u.id = tid
      · have hut : u = t := task_eq_of_id hids hu2.1 htm (by rw [hid, htid])
        subst hut
        left
        rw [← hux, hFt]
      · right
        have hcb : u.columnId = some B := by
          have := hu2.2
          simp [hid] at this
          exact this
        refine ⟨u, ?_, ?_⟩
        · unfold columnTasks
          rw [List.mem_filter]
          exact ⟨hu2.1, by simp [hcb]⟩
        · rw [← hux, hFo u hid, if_pos (by simp [hcb])]
    · rintro (hx | ⟨u, hu, hx⟩)
      · refine ⟨t, ?_, ?_⟩
        · rw [List.mem_filter]
          exact ⟨htm, by simp [htid]⟩
        · rw [hFt, hx]
      · have hu2 := List.mem_filter.mp hu
        have hcb : u.columnId = some B := by simpa using hu2.2
        have hid : u.id ≠ tid := by
          intro hcon
          have hut : u = t := task_eq_of_id hids hu2.1 htm (by rw [hcon, htid])
          rw [hut, hcolA] at hcb
          exact hAB (by simpa using hcb)
        refine ⟨u, ?_, ?_⟩
        · rw [List.mem_filter]
          exact ⟨hu2.1, by simp [hid, hcb]⟩
        · rw [hFo u hid, if_pos (by simp [hcb]), hx]
  refine ⟨hctA, ?_, hlenB, ?_, ?_⟩
  · rw [hctA, ← List.countP_eq_length_filter]
    have htotal := List.length_eq_countP_add_countP (fun u => u.id == tid) (columnTasks db A)
    have hone : (columnTasks db A).countP (fun u => u.id == tid) = 1 :=
      countP_key_eq_one Task.id (columnTasks db A) hndA t htA tid htid
    have hsame : (columnTasks db A).countP (fun u => u.id != tid) =
        (columnTasks db A).countP (fun a => decide ¬((a.id == tid) = true)) := by
      apply List.countP_congr
      intro x _
      simp [bne]
    rw [hsame]
    omega
  · exact densePositions_of_shift (columnTasks db B) _ _ q g hdB hlenB hmemB rfl hq0 hq1 hgpos
  · unfold get_task_by_id
    have hcomp : ((fun u : Task => u.id == tid) ∘ F) = fun u : Task => u.id == tid := by
      funext u
      simp [Function.comp, hFid]
    rw [List.find?_map, hcomp]
    have hfind : db.tasks.find? (fun u : Task => u.id == tid) = some t := by
      have hmemt : tid ∈ db.tasks.map Task.id := by
        rw [← htid]
        exact List.mem_map_of_mem Task.id htm
      cases hf : db.tasks.find? (fun u : Task => u.id == tid) with
      | none =>
        exfalso
        rw [List.find?_eq_none] at hf
        obtain ⟨u, hu, hui⟩ := List.mem_map.mp hmemt
        exact absurd (by simp [hui] : (u.id == tid) = true) (by simpa using hf u hu)
      | some u =>
        have hum : u ∈ db.tasks := List.mem_of_find?_eq_some hf
        have hui : u.id = tid := by simpa using List.find?_some hf
        rw [task_eq_of_id hids hum htm (by rw [hui, htid])]
    rw [hfind]
    rw [show Option.map F (some t) = some (F t) from rfl]
    rw [hFt]

/-- C2 (amended): moving task T from column A, whose positions are
dense, to a distinct column B with b dense positions at a requested
non-negative position p succeeds; column A afterwards holds exactly its
other rows with their positions untouched (so one fewer row, with a gap
where T sat unless T was last, rather than the dense set the original
claim states); column B holds b + 1 rows at dense positions 0..b; and T
carries position p, clamped to b when p is at least b. -/
theorem c2_cross_column_move (db : DB) (tid : Nat) (t : Task) (A B : Nat) (p : Int)
    (hids : (db.tasks.map Task.id).Nodup)
    (ht : get_task_by_id db tid = some t)
    (hcolA : t.columnId = some A)
    (hAB : A ≠ B)
    (hp : 0 ≤ p)
    (_hdA : DensePositions (columnTasks db A))
    (hdB : DensePositions (columnTasks db B)) :
    ∃ db2, update_task_position db tid (some B) p = some db2 ∧
      columnTasks db2 A = (columnTasks db A).filter (fun u => u.id != tid) ∧
      (columnTasks db2 A).length + 1 = (columnTasks db A).length ∧
      (columnTasks db2 B).length = (columnTasks db B).length + 1 ∧
      DensePositions (columnTasks db2 B) ∧
      get_task_by_id db2 tid = some { t with columnId := some B, position := some (if ((columnTasks db B).length : Int) ≤ p then ((columnTasks db B).length : Int) else p) } := by
  have ht2 : db.tasks.find? (fun u : Task => u.id == tid) = some t := ht
  have htm : t ∈ db.tasks := List.mem_of_find?_eq_some ht2
  have htid : t.id = tid := by simpa using List.find?_some ht2
  have hBA : (some B : Option Nat) ≠ some A := by simpa using Ne.symm hAB
  have hsl : (sortByPos (columnTasks db B)).length = (columnTasks db B).length :=
    (List.perm_insertionSort posLE (columnTasks db B)).length_eq
  by_cases hcl : ((columnTasks db B).length : Int) ≤ p
  · have heval : update_task_position db tid (some B) p =
        some { db with tasks := (db.tasks.map (moveClamp tid (some B) ((columnTasks db B).length : Int)) : List Task) } := by
      unfold update_task_position
      rw [ht]
      simp only [hcolA, columnTasks_eq, hsl]
      rw [if_pos (⟨hBA, rfl⟩ :
        (some B : Option Nat) ≠ some A ∧ ((some A : Option Nat)).isSome = true)]
      rw [if_pos (show p ≥ ((columnTasks db B).length : Int) from hcl)]
    have hccl := cross_move_conclusions db tid t A B
      (moveClamp tid (some B) ((columnTasks db B).length : Int)) (fun u => u)
      ((columnTasks db B).length : Int) hids htm htid hcolA hAB hdB
      (by positivity) (le_refl _)
      (fun u => moveClamp_id tid (some B) _ u)
      (by unfold moveClamp; rw [if_pos (by simp [htid])])
      (fun u hu => by
        unfold moveClamp
        rw [if_neg (by simp [hu]), ite_self])
      (fun u => rfl)
      (fun u hu m hm h0 h1 => by
        rw [if_neg (by omega)]
        exact hm)
    obtain ⟨hA1, hA2, hB1, hB2, hB3⟩ := hccl
    refine ⟨_, heval, hA1, hA2, hB1, hB2, ?_⟩
    rw [if_pos hcl]
    exact hB3
  · have heval : update_task_position db tid (some B) p =
        some { db with tasks := db.tasks.map (moveCross tid (some B) p (some B)) } := by
      unfold update_task_position
      rw [ht]
      simp only [hcolA, columnTasks_eq, hsl]
      rw [if_pos (⟨hBA, rfl⟩ :
        (some B : Option Nat) ≠ some A ∧ ((some A : Option Nat)).isSome = true)]
      rw [if_neg (show ¬ (p ≥ ((columnTasks db B).length : Int)) from by omega)]
      rw [if_pos hBA]
    have hccl := cross_move_conclusions db tid t A B
      (moveCross tid (some B) p (some B)) (shiftIn p) p hids htm htid hcolA hAB hdB
      hp (by omega)
      (fun u => moveCross_id tid (some B) p (some B) u)
      (by unfold moveCross; rw [if_pos (by simp [htid])])
      (fun u hu => by unfold moveCross; rw [if_neg (by simp [hu])])
      (fun u => shiftIn_columnId p u)
      (fun u hu m hm h0 h1 => shiftIn_position p u m hm)
    obtain ⟨hA1, hA2, hB1, hB2, hB3⟩ := hccl
    refine ⟨_, heval, hA1, hA2, hB1, hB2, ?_⟩
    rw [if_neg hcl]
    exact hB3

/-- Witness for C2 at a concrete store: task 1 moves from column 10
(two dense rows) to column 20 (one dense row) at position 0. -/
theorem c2_cross_column_move_witness :
    DensePositions (columnTasks w2DB 10) ∧ DensePositions (columnTasks w2DB 20) ∧
    (∃ db2, update_task_position w2DB 1 (some 20) 0 = some db2 ∧
      columnTasks db2 10 = (columnTasks w2DB 10).filter (fun u => u.id != 1) ∧
      (columnTasks db2 10).length + 1 = (columnTasks w2DB 10).length ∧
      (columnTasks db2 20).length = (columnTasks w2DB 20).length + 1 ∧
      DensePositions (columnTasks db2 20) ∧
      get_task_by_id db2 1 = some { (⟨1, 1, some 10, some 0, none⟩ : Task) with columnId := some 20, position := some (if ((columnTasks w2DB 20).length : Int) ≤ 0 then ((columnTasks w2DB 20).length : Int) else 0) }) := by
  have hdA : DensePositions (columnTasks w2DB 10) := by
    refine ⟨?_, ?_, ?_⟩
    · intro u hu
      have hl : columnTasks w2DB 10 =
          [⟨1, 1, some 10, some 0, none⟩, ⟨2, 1, some 10, some 1, none⟩] := by decide
      rw [hl] at hu
      simp only [List.mem_cons, List.not_mem_nil, or_false] at hu
      rcases hu with h | h <;> subst h
      · exact ⟨0, rfl, by decide, by decide⟩
      · exact ⟨1, rfl, by decide, by decide⟩
    · intro k h1 h2
      have hlen : ((columnTasks w2DB 10).length : Int) = 2 := by decide
      rw [hlen] at h2
      have : k = 0 ∨ k = 1 := by omega
      rcases this with h | h <;> subst h
      · exact ⟨⟨1, 1, some 10, some 0, none⟩, by decide, rfl⟩
      · exact ⟨⟨2, 1, some 10, some 1, none⟩, by decide, rfl⟩
    · decide
  have hdB : DensePositions (columnTasks w2DB 20) := by
    refine ⟨?_, ?_, ?_⟩
    · intro u hu
      have hl : columnTasks w2DB 20 = [⟨3, 1, some 20, some 0, none⟩] := by decide
      rw [hl] at hu
      simp only [List.mem_cons, List.not_mem_nil, or_false] at hu
      subst hu
      exact ⟨0, rfl, by decide, by decide⟩
    · intro k h1 h2
      have hlen : ((columnTasks w2DB 20).length : Int) = 1 := by decide
      rw [hlen] at h2
      have : k = 0 := by omega
      subst this
      exact ⟨⟨3, 1, some 20, some 0, none⟩, by decide, rfl⟩
    · decide
  exact ⟨hdA, hdB, c2_cross_column_move w2DB 1 ⟨1, 1, some 10, some 0, none⟩ 10 20 0
    (by decide) (by decide) rfl (by decide) (by decide) hdA hdB⟩

/-- Common conclusions of the three reorder shapes of
update_board_column (move right, move left, unchanged order), for any
per-row write G that sets the target to the new order, shifts the other
project columns by the move map, and fixes other projects: the target
carries the new order, every other project column carries its shifted
order, foreign columns are untouched, and the project orders stay
dense. -/
theorem reorder_conclusions (db : DB) (cid : Nat) (col : BoardColumn) (newOrder : Int)
    (G : BoardColumn → BoardColumn)
    (hids : (db.columns.map BoardColumn.id).Nodup)
    (hcm : col ∈ db.columns) (hcid : col.id = cid)
    (hdense : DenseOrders (projCols db col.projectId))
    (h0 : 0 ≤ newOrder) (h1 : newOrder < ((projCols db col.projectId).length : Int))
    (hGid : ∀ c, (G c).id = c.id)
    (hGproj : ∀ c, (G c).projectId = c.projectId)
    (hGtarget : (G col).order = newOrder)
    (hGsame : ∀ c ∈ db.columns, c.id ≠ cid → c.projectId = col.projectId →
      (G c).order = (if col.order < c.order ∧ c.order ≤ newOrder then c.order - 1
        else if newOrder ≤ c.order ∧ c.order < col.order then c.order + 1 else c.order))
    (hGdiff : ∀ c ∈ db.columns, c.projectId ≠ col.projectId → G c = c) :
    (∃ c2 ∈ (db.columns.map G : List BoardColumn), c2.id = cid ∧ c2.order = newOrder) ∧
    (∀ c ∈ db.columns, c.id ≠ cid → c.projectId = col.projectId →
      ∃ c2 ∈ (db.columns.map G : List BoardColumn), c2.id = c.id ∧
        c2.projectId = c.projectId ∧
        c2.order = (if col.order < c.order ∧ c.order ≤ newOrder then c.order - 1
          else if newOrder ≤ c.order ∧ c.order < col.order then c.order + 1 else c.order)) ∧
    (∀ c ∈ db.columns, c.projectId ≠ col.projectId →
      c ∈ (db.columns.map G : List BoardColumn)) ∧
    DenseOrders (projCols { db with columns := db.columns.map G } col.projectId) ∧
    (projCols { db with columns := db.columns.map G } col.projectId).length =
      (projCols db col.projectId).length := by
  have hcolP : col ∈ projCols db col.projectId := by
    unfold projCols
    rw [List.mem_filter]
    exact ⟨hcm, by simp⟩
  obtain ⟨hd1, hd2, hd3⟩ := hdense
  have holdb := hd1 col hcolP
  have hproj2 : projCols { db with columns := db.columns.map G } col.projectId
      = (projCols db col.projectId).map G := by
    unfold projCols
    have hfc : List.filter ((fun c : BoardColumn => c.projectId == col.projectId) ∘ G)
        db.columns = List.filter (fun c => c.projectId == col.projectId) db.columns :=
      List.filter_congr (fun c _ => by simp [hGproj])
    rw [List.filter_map, hfc]
  have huniq : ∀ c ∈ db.columns, c.id = cid → c = col :=
    fun c hcmem hcidq => col_eq_of_id hids hcmem hcm (by rw [hcidq, hcid])
  have hmemP : ∀ c ∈ projCols db col.projectId,
      c ∈ db.columns ∧ c.projectId = col.projectId := by
    intro c hc
    have := List.mem_filter.mp hc
    exact ⟨this.1, by simpa using this.2⟩
  have hother_ord : ∀ c ∈ projCols db col.projectId, c ≠ col → c.order ≠ col.order := by
    intro c hcp hne hcon
    exact hne (hd3 c hcp col hcolP hcon)
  have hGval : ∀ c ∈ projCols db col.projectId, c ≠ col →
      (G c).order = (if col.order < c.order ∧ c.order ≤ newOrder then c.order - 1
        else if newOrder ≤ c.order ∧ c.order < col.order then c.order + 1 else c.order) := by
    intro c hcp hne
    obtain ⟨hcm2, hcproj⟩ := hmemP c hcp
    have hcidne : c.id ≠ cid := fun h => hne (huniq c hcm2 h)
    exact hGsame c hcm2 hcidne hcproj
  have hstep : ∀ s : Int, 0 ≤ s → s < ((projCols db col.projectId).length : Int) →
      s ≠ col.order →
      ∃ c2 ∈ (projCols db col.projectId).map G, c2.order =
        (if col.order < s ∧ s ≤ newOrder then s - 1
          else if newOrder ≤ s ∧ s < col.order then s + 1 else s) := by
    intro s hs0 hs1 hsne
    obtain ⟨c, hcp, hcord⟩ := hd2 s hs0 hs1
    have hcne : c ≠ col := by
      intro he
      rw [he] at hcord
      exact hsne hcord.symm
    refine ⟨G c, List.mem_map_of_mem G hcp, ?_⟩
    rw [hGval c hcp hcne, hcord]
  refine ⟨?_, ?_, ?_, ?_, ?_⟩
  · exact ⟨G col, List.mem_map_of_mem G hcm, by rw [hGid, hcid], hGtarget⟩
  · intro c hcm2 hcidne hcproj
    exact ⟨G c, List.mem_map_of_mem G hcm2, hGid c, by rw [hGproj],
      hGsame c hcm2 hcidne hcproj⟩
  · intro c hcm2 hcproj
    have := List.mem_map_of_mem G hcm2
    rw [hGdiff c hcm2 hcproj] at this
    exact this
  · rw [hproj2]
    refine ⟨?_, ?_, ?_⟩
    · intro c2 hc2
      rw [List.length_map]
      obtain ⟨c, hcp, hce⟩ := List.mem_map.mp hc2
      subst hce
      by_cases hceq : c = col
      · subst hceq
        rw [hGtarget]
        exact ⟨h0, h1⟩
      · rw [hGval c hcp hceq]
        have hb := hd1 c hcp
        have hne := hother_ord c hcp hceq
        split_ifs <;> omega
    · intro k hk0 hk1
      rw [List.length_map] at hk1
      by_cases hknew : k = newOrder
      · refine ⟨G col, List.mem_map_of_mem G hcolP, ?_⟩
        rw [hGtarget, hknew]
      · rcases lt_trichotomy col.order newOrder with hon | hon | hon
        · by_cases hk : col.order ≤ k ∧ k < newOrder
          · obtain ⟨c2, hc2, hc2o⟩ := hstep (k + 1) (by omega) (by omega) (by omega)
            refine ⟨c2, hc2, ?_⟩
            rw [hc2o]
            split_ifs <;> omega
          · obtain ⟨c2, hc2, hc2o⟩ := hstep k hk0 hk1 (by omega)
            refine ⟨c2, hc2, ?_⟩
            rw [hc2o]
            split_ifs <;> omega
        · obtain ⟨c2, hc2, hc2o⟩ := hstep k hk0 hk1 (by omega)
          refine ⟨c2, hc2, ?_⟩
          rw [hc2o]
          split_ifs <;> omega
        · by_cases hk : newOrder < k ∧ k ≤ col.order
          · obtain ⟨c2, hc2, hc2o⟩ := hstep (k - 1) (by omega) (by omega) (by omega)
            refine ⟨c2, hc2, ?_⟩
            rw [hc2o]
            split_ifs <;> omega
          · obtain ⟨c2, hc2, hc2o⟩ := hstep k hk0 hk1 (by omega)
            refine ⟨c2, hc2, ?_⟩
            rw [hc2o]
            split_ifs <;> omega
    · intro x hx y hy hxy
      obtain ⟨c, hcp, hce⟩ := List.mem_map.mp hx
      obtain ⟨c2, hc2p, hc2e⟩ := List.mem_map.mp hy
      subst hce
      subst hc2e
      by_cases hceq : c = col <;> by_cases hc2eq : c2 = col
      · rw [hceq, hc2eq]
      · exfalso
        subst hceq
        rw [hGtarget, hGval c2 hc2p hc2eq] at hxy
        have hb := hd1 c2 hc2p
        have hne := hother_ord c2 hc2p hc2eq
        revert hxy
        split_ifs <;> omega
      · exfalso
        subst hc2eq
        rw [hGtarget, hGval c hcp hceq] at hxy
        have hb := hd1 c hcp
        have hne := hother_ord c hcp hceq
        revert hxy
        split_ifs <;> omega
      · rw [hGval c hcp hceq, hGval c2 hc2p hc2eq] at hxy
        have hb := hd1 c hcp
        have hb2 := hd1 c2 hc2p
        have hne := hother_ord c hcp hceq
        have hne2 := hother_ord c2 hc2p hc2eq
        have hord : c.order = c2.order := by
          revert hxy
          split_ifs <;> omega
        rw [hd3 c hcp c2 hc2p hord]
  · rw [hproj2, List.length_map]

/-- C3 (amended): changing the order of a column of a dense project
from old to a new value inside 0..m-1 succeeds; the target column
receives the new order, every other project column with
old < order ≤ new is decremented and every one with new ≤ order < old
is incremented (the half-open interval including the new slot, not the
open interval of the original claim), columns of other projects are
untouched, and the project orders remain dense 0..m-1. -/
theorem c3_update_column_order (db : DB) (cid : Nat) (col : BoardColumn) (newOrder : Int)
    (hids : (db.columns.map BoardColumn.id).Nodup)
    (hc : get_column_by_id db cid = some col)
    (hdense : DenseOrders (projCols db col.projectId))
    (h0 : 0 ≤ newOrder) (h1 : newOrder < ((projCols db col.projectId).length : Int)) :
    ∃ db2, update_board_column db cid ⟨some newOrder⟩ = some db2 ∧
      (∃ c2 ∈ db2.columns, c2.id = cid ∧ c2.order = newOrder) ∧
      (∀ c ∈ db.columns, c.id ≠ cid → c.projectId = col.projectId →
        ∃ c2 ∈ db2.columns, c2.id = c.id ∧ c2.projectId = c.projectId ∧
          c2.order = (if col.order < c.order ∧ c.order ≤ newOrder then c.order - 1
            else if newOrder ≤ c.order ∧ c.order < col.order then c.order + 1
            else c.order)) ∧
      (∀ c ∈ db.columns, c.projectId ≠ col.projectId → c ∈ db2.columns) ∧
      DenseOrders (projCols db2 col.projectId) ∧
      (projCols db2 col.projectId).length = (projCols db col.projectId).length := by
  have hcf : db.columns.find? (fun c : BoardColumn => c.id == cid) = some col := hc
  have hcm : col ∈ db.columns := List.mem_of_find?_eq_some hcf
  have hcid : col.id = cid := by simpa using List.find?_some hcf
  have hso_ne : ∀ d : BoardColumn, d.id ≠ cid → colSetOrder cid newOrder d = d := by
    intro d hd
    unfold colSetOrder
    rw [if_neg (by simpa using hd)]
  have hso_eq : ∀ d : BoardColumn, d.id = cid →
      colSetOrder cid newOrder d = { d with order := newOrder } := by
    intro d hd
    unfold colSetOrder
    rw [if_pos (by simpa using hd)]
  have hso_id : ∀ d : BoardColumn, (colSetOrder cid newOrder d).id = d.id := by
    intro d
    unfold colSetOrder
    split_ifs <;> rfl
  have hso_proj : ∀ d : BoardColumn, (colSetOrder cid newOrder d).projectId = d.projectId := by
    intro d
    unfold colSetOrder
    split_ifs <;> rfl
  have hforeign : ∀ c ∈ db.columns, c.projectId ≠ col.projectId → c.id ≠ cid := by
    intro c hcm2 hcproj h
    exact hcproj (by rw [col_eq_of_id hids hcm2 hcm (by rw [h, hcid])])
  rcases lt_trichotomy col.order newOrder with hon | hon | hon
  · have hshl_id : ∀ d, (colShiftLeft col.projectId col.order newOrder d).id = d.id := by
      intro d
      unfold colShiftLeft
      split_ifs <;> rfl
    have hshl_proj : ∀ d,
        (colShiftLeft col.projectId col.order newOrder d).projectId = d.projectId := by
      intro d
      unfold colShiftLeft
      split_ifs <;> rfl
    have heval : update_board_column db cid ⟨some newOrder⟩ =
        some { db with columns := ((db.columns.map (colShiftLeft col.projectId col.order newOrder)).map (colSetOrder cid newOrder) : List BoardColumn) } := by
      unfold update_board_column
      rw [hc]
      simp only []
      rw [if_pos (show newOrder ≠ col.order from by omega), if_pos hon]
    have hcomb : (db.columns.map (colShiftLeft col.projectId col.order newOrder)).map
        (colSetOrder cid newOrder) = db.columns.map
        (fun d => colSetOrder cid newOrder (colShiftLeft col.projectId col.order newOrder d)) := by
      rw [List.map_map]
      rfl
    rw [hcomb] at heval
    have hconc := reorder_conclusions db cid col newOrder
      (fun d => colSetOrder cid newOrder (colShiftLeft col.projectId col.order newOrder d))
      hids hcm hcid hdense h0 h1
      (fun d => by rw [hso_id, hshl_id])
      (fun d => by rw [hso_proj, hshl_proj])
      (by
        have hsh : colShiftLeft col.projectId col.order newOrder col = col := by
          unfold colShiftLeft
          rw [if_neg (fun hcon => absurd hcon.2.1 (lt_irrefl _))]
        show (colSetOrder cid newOrder (colShiftLeft col.projectId col.order newOrder col)).order
          = newOrder
        rw [hsh, hso_eq col hcid])
      (fun c hcm2 hcidne hcproj => by
        have hsh : colShiftLeft col.projectId col.order newOrder c =
            if col.order < c.order ∧ c.order ≤ newOrder then { c with order := c.order - 1 }
            else c := by
          unfold colShiftLeft
          by_cases hcc : col.order < c.order ∧ c.order ≤ newOrder
          · rw [if_pos ⟨hcproj, hcc.1, hcc.2⟩, if_pos hcc]
          · rw [if_neg (fun hcon => hcc ⟨hcon.2.1, hcon.2.2⟩), if_neg hcc]
        show (colSetOrder cid newOrder (colShiftLeft col.projectId col.order newOrder c)).order = _
        rw [hso_ne _ (by rw [hshl_id]; exact hcidne), hsh]
        by_cases hcc : col.order < c.order ∧ c.order ≤ newOrder
        · rw [if_pos hcc, if_pos hcc]
        · rw [if_neg hcc, if_neg hcc]
          rw [if_neg (show ¬(newOrder ≤ c.order ∧ c.order < col.order) from by omega)])
      (fun c hcm2 hcproj => by
        have hsh : colShiftLeft col.projectId col.order newOrder c = c := by
          unfold colShiftLeft
          rw [if_neg (fun hcon => hcproj hcon.1)]
        show colSetOrder cid newOrder (colShiftLeft col.projectId col.order newOrder c) = c
        rw [hsh, hso_ne c (hforeign c hcm2 hcproj)])
    exact ⟨_, heval, hconc.1, hconc.2.1, hconc.2.2.1, hconc.2.2.2.1, hconc.2.2.2.2⟩
  · have heval : update_board_column db cid ⟨some newOrder⟩ =
        some { db with columns := (db.columns.map (colSetOrder cid newOrder) : List BoardColumn) } := by
      unfold update_board_column
      rw [hc]
      simp only []
      rw [if_neg (show ¬(newOrder ≠ col.order) from fun h => h hon.symm)]
    have hconc := reorder_conclusions db cid col newOrder (colSetOrder cid newOrder)
      hids hcm hcid hdense h0 h1 hso_id hso_proj
      (by
        show (colSetOrder cid newOrder col).order = newOrder
        rw [hso_eq col hcid])
      (fun c hcm2 hcidne hcproj => by
        show (colSetOrder cid newOrder c).order = _
        rw [hso_ne c hcidne]
        rw [if_neg (show ¬(col.order < c.order ∧ c.order ≤ newOrder) from by omega)]
        rw [if_neg (show ¬(newOrder ≤ c.order ∧ c.order < col.order) from by omega)])
      (fun c hcm2 hcproj => hso_ne c (hforeign c hcm2 hcproj))
    exact ⟨_, heval, hconc.1, hconc.2.1, hconc.2.2.1, hconc.2.2.2.1, hconc.2.2.2.2⟩
  · have hshr_id : ∀ d, (colShiftRight col.projectId newOrder col.order d).id = d.id := by
      intro d
      unfold colShiftRight
      split_ifs <;> rfl
    have hshr_proj : ∀ d,
        (colShiftRight col.projectId newOrder col.order d).projectId = d.projectId := by
      intro d
      unfold colShiftRight
      split_ifs <;> rfl
    have heval : update_board_column db cid ⟨some newOrder⟩ =
        some { db with columns := ((db.columns.map (colShiftRight col.projectId newOrder col.order)).map (colSetOrder cid newOrder) : List BoardColumn) } := by
      unfold update_board_column
      rw [hc]
      simp only []
      rw [if_pos (show newOrder ≠ col.order from by omega),
        if_neg (show ¬(col.order < newOrder) from by omega)]
    have hcomb : (db.columns.map (colShiftRight col.projectId newOrder col.order)).map
        (colSetOrder cid newOrder) = db.columns.map
        (fun d => colSetOrder cid newOrder (colShiftRight col.projectId newOrder col.order d)) := by
      rw [List.map_map]
      rfl
    rw [hcomb] at heval
    have hconc := reorder_conclusions db cid col newOrder
      (fun d => colSetOrder cid newOrder (colShiftRight col.projectId newOrder col.order d))
      hids hcm hcid hdense h0 h1
      (fun d => by rw [hso_id, hshr_id])
      (fun d => by rw [hso_proj, hshr_proj])
      (by
        have hsh : colShiftRight col.projectId newOrder col.order col = col := by
          unfold colShiftRight
          rw [if_neg (fun hcon => absurd hcon.2.2 (lt_irrefl _))]
        show (colSetOrder cid newOrder (colShiftRight col.projectId newOrder col.order col)).order
          = newOrder
        rw [hsh, hso_eq col hcid])
      (fun c hcm2 hcidne hcproj => by
        have hsh : colShiftRight col.projectId newOrder col.order c =
            if newOrder ≤ c.order ∧ c.order < col.order then { c with order := c.order + 1 }
            else c := by
          unfold colShiftRight
          by_cases hcc : newOrder ≤ c.order ∧ c.order < col.order
          · rw [if_pos ⟨hcproj, hcc.1, hcc.2⟩, if_pos hcc]
          · rw [if_neg (fun hcon => hcc ⟨hcon.2.1, hcon.2.2⟩), if_neg hcc]
        show (colSetOrder cid newOrder (colShiftRight col.projectId newOrder col.order c)).order = _
        rw [hso_ne _ (by rw [hshr_id]; exact hcidne), hsh]
        rw [if_neg (show ¬(col.order < c.order ∧ c.order ≤ newOrder) from by omega)]
        by_cases hcc : newOrder ≤ c.order ∧ c.order < col.order
        · rw [if_pos hcc, if_pos hcc]
        · rw [if_neg hcc, if_neg hcc])
      (fun c hcm2 hcproj => by
        have hsh : colShiftRight col.projectId newOrder col.order c = c := by
          unfold colShiftRight
          rw [if_neg (fun hcon => hcproj hcon.1)]
        show colSetOrder cid newOrder (colShiftRight col.projectId newOrder col.order c) = c
        rw [hsh, hso_ne c (hforeign c hcm2 hcproj)])
    exact ⟨_, heval, hconc.1, hconc.2.1, hconc.2.2.1, hconc.2.2.2.1, hconc.2.2.2.2⟩

/-- Witness for C3 at a concrete store: the column at order 0 of a
three-column project moves to order 2. -/
theorem c3_update_column_order_witness :
    DenseOrders (projCols w3DB 1) ∧
    (∃ db2, update_board_column w3DB 1 ⟨some 2⟩ = some db2 ∧
      (∃ c2 ∈ db2.columns, c2.id = 1 ∧ c2.order = 2) ∧
      (∀ c ∈ w3DB.columns, c.id ≠ 1 → c.projectId = 1 →
        ∃ c2 ∈ db2.columns, c2.id = c.id ∧ c2.projectId = c.projectId ∧
          c2.order = (if 0 < c.order ∧ c.order ≤ 2 then c.order - 1
            else if 2 ≤ c.order ∧ c.order < 0 then c.order + 1 else c.order)) ∧
      (∀ c ∈ w3DB.columns, c.projectId ≠ 1 → c ∈ db2.columns) ∧
      DenseOrders (projCols db2 1) ∧
      (projCols db2 1).length = (projCols w3DB 1).length) := by
  have hd : DenseOrders (projCols w3DB 1) := by
    refine ⟨by decide, ?_, by decide⟩
    intro k h1 h2
    have hlen : ((projCols w3DB 1).length : Int) = 3 := by decide
    rw [hlen] at h2
    have : k = 0 ∨ k = 1 ∨ k = 2 := by omega
    rcases this with h | h | h <;> subst h
    · exact ⟨⟨1, 1, 0⟩, by decide, rfl⟩
    · exact ⟨⟨2, 1, 1⟩, by decide, rfl⟩
    · exact ⟨⟨3, 1, 2⟩, by decide, rfl⟩
  exact ⟨hd, c3_update_column_order w3DB 1 ⟨1, 1, 0⟩ 2 (by decide) (by decide) hd
    (by decide) (by decide)⟩

/-- Head of the order_by order query: a member of minimal order. -/
theorem sortByOrder_head_min (l : List BoardColumn) (fb : BoardColumn)
    (h : (sortByOrder l).head? = some fb) : fb ∈ l ∧ ∀ c ∈ l, fb.order ≤ c.order := by
  have hperm : (sortByOrder l).Perm l := List.perm_insertionSort _ _
  have hsorted : List.Sorted ordLE (sortByOrder l) := List.sorted_insertionSort _ _
  cases hL : sortByOrder l with
  | nil =>
    rw [hL] at h
    simp at h
  | cons x xs =>
    rw [hL] at h
    have hx : x = fb := by simpa using h
    subst hx
    rw [hL] at hperm hsorted
    constructor
    · exact hperm.mem_iff.mp (List.mem_cons_self x xs)
    · intro c hc
      rcases List.mem_cons.mp (hperm.mem_iff.mpr hc) with he | hmem
      · rw [he]
      · exact List.rel_of_sorted_cons hsorted c hmem

/-- Shifts after a deletion do not touch the id of a row. -/
theorem colDropShift_id (pid : Nat) (d0 : Int) (c : BoardColumn) :
    (colDropShift pid d0 c).id = c.id := by
  unfold colDropShift
  split_ifs <;> rfl

/-- Shifts after a deletion do not touch the project of a row. -/
theorem colDropShift_proj (pid : Nat) (d0 : Int) (c : BoardColumn) :
    (colDropShift pid d0 c).projectId = c.projectId := by
  unfold colDropShift
  split_ifs <;> rfl

/-- Order of a row after the deletion shift. -/
theorem colDropShift_order (pid : Nat) (d0 : Int) (c : BoardColumn) :
    (colDropShift pid d0 c).order =
      (if c.projectId = pid ∧ d0 < c.order then c.order - 1 else c.order) := by
  unfold colDropShift
  split_ifs <;> rfl

/-- C4: deleting an existing column C of a dense project succeeds and
returns true; every task previously in C moves to the lowest-order
remaining column of the same project (or to no column when none
remains) with its position cleared; no row references C afterwards; the
remaining project columns past the deleted order move one slot left,
keeping the project orders dense; an unknown column id returns false
with the store unchanged. -/
theorem c4_delete_column (db : DB) (cid : Nat) (col : BoardColumn)
    (hids : (db.columns.map BoardColumn.id).Nodup)
    (hc : get_column_by_id db cid = some col)
    (hdense : DenseOrders (projCols db col.projectId)) :
    (delete_board_column db cid).1 = true ∧
    (∀ c2 ∈ (delete_board_column db cid).2.columns, c2.id ≠ cid) ∧
    (∀ c ∈ db.columns, c.id ≠ cid →
      ∃ c2 ∈ (delete_board_column db cid).2.columns, c2.id = c.id ∧
        c2.projectId = c.projectId ∧
        c2.order = (if c.projectId = col.projectId ∧ col.order < c.order then c.order - 1
          else c.order)) ∧
    DenseOrders (projCols (delete_board_column db cid).2 col.projectId) ∧
    (projCols (delete_board_column db cid).2 col.projectId).length + 1 =
      (projCols db col.projectId).length ∧
    (∀ u2 ∈ (delete_board_column db cid).2.tasks, u2.columnId ≠ some cid) ∧
    (otherCols db col.projectId cid = [] → ∀ u ∈ db.tasks, u.columnId = some cid →
      ({ u with columnId := none, position := none } : Task) ∈ (delete_board_column db cid).2.tasks) ∧
    (otherCols db col.projectId cid ≠ [] → ∃ fb, fb ∈ otherCols db col.projectId cid ∧
      (∀ c ∈ otherCols db col.projectId cid, fb.order ≤ c.order) ∧
      ∀ u ∈ db.tasks, u.columnId = some cid →
        ({ u with columnId := some fb.id, position := none } : Task) ∈ (delete_board_column db cid).2.tasks) ∧
    (∀ u ∈ db.tasks, u.columnId ≠ some cid → u ∈ (delete_board_column db cid).2.tasks) ∧
    (∀ cid2, get_column_by_id db cid2 = none → delete_board_column db cid2 = (false, db)) := by
  have hcf : db.columns.find? (fun c : BoardColumn => c.id == cid) = some col := hc
  have hcm : col ∈ db.columns := List.mem_of_find?_eq_some hcf
  have hcid : col.id = cid := by simpa using List.find?_some hcf
  have hcolP : col ∈ projCols db col.projectId := by
    unfold projCols
    rw [List.mem_filter]
    exact ⟨hcm, by simp⟩
  obtain ⟨hd1, hd2, hd3⟩ := hdense
  have holdb := hd1 col hcolP
  have heval1 : (delete_board_column db cid).1 = true := by
    unfold delete_board_column
    rw [hc]
  have heval2 : (delete_board_column db cid).2 = { db with tasks := (db.tasks.map (rehome cid (((sortByOrder (otherCols db col.projectId cid)).head?).map (fun c => c.id))) : List Task), columns := ((db.columns.filter (fun c => c.id != cid)).map (colDropShift col.projectId col.order) : List BoardColumn) } := by
    unfold delete_board_column
    rw [hc]
  have hGval : ∀ c : BoardColumn, c.projectId = col.projectId →
      (colDropShift col.projectId col.order c).order =
        (if col.order < c.order then c.order - 1 else c.order) := by
    intro c hproj
    rw [colDropShift_order]
    by_cases hx : col.order < c.order
    · rw [if_pos ⟨hproj, hx⟩, if_pos hx]
    · rw [if_neg (fun hcon => hx hcon.2), if_neg hx]
  have h2g : ∀ c2 ∈ (db.columns.filter (fun c => c.id != cid)).map
      (colDropShift col.projectId col.order), c2.id ≠ cid := by
    intro c2 hc2
    obtain ⟨c, hcp, hce⟩ := List.mem_map.mp hc2
    subst hce
    rw [colDropShift_id]
    simpa using (List.mem_filter.mp hcp).2
  have h3g : ∀ c ∈ db.columns, c.id ≠ cid →
      ∃ c2 ∈ (db.columns.filter (fun c => c.id != cid)).map
        (colDropShift col.projectId col.order), c2.id = c.id ∧
        c2.projectId = c.projectId ∧
        c2.order = (if c.projectId = col.projectId ∧ col.order < c.order then c.order - 1
          else c.order) := by
    intro c hcm2 hcidne
    exact ⟨colDropShift col.projectId col.order c,
      List.mem_map_of_mem _ (List.mem_filter.mpr ⟨hcm2, by simpa⟩),
      colDropShift_id _ _ c, colDropShift_proj _ _ c, colDropShift_order _ _ c⟩
  have hproj2 : projCols { db with tasks := (db.tasks.map (rehome cid (((sortByOrder (otherCols db col.projectId cid)).head?).map (fun c => c.id))) : List Task), columns := ((db.columns.filter (fun c => c.id != cid)).map (colDropShift col.projectId col.order) : List BoardColumn) } col.projectId = ((projCols db col.projectId).filter (fun c => c.id != cid)).map (colDropShift col.projectId col.order) := by
    unfold projCols
    have h1 : List.filter ((fun c : BoardColumn => c.projectId == col.projectId) ∘
        (colDropShift col.projectId col.order)) (db.columns.filter (fun c => c.id != cid)) =
        List.filter (fun c => c.projectId == col.projectId)
          (db.columns.filter (fun c => c.id != cid)) :=
      List.filter_congr (fun c _ => by simp [colDropShift_proj])
    rw [List.filter_map, h1, List.filter_filter, List.filter_filter]
    congr 1
    exact List.filter_congr (fun c _ => Bool.and_comm _ _)
  have hndPid : ((projCols db col.projectId).map BoardColumn.id).Nodup :=
    ((List.filter_sublist db.columns).map BoardColumn.id).nodup hids
  have hrestlen : ((projCols db col.projectId).filter (fun c => c.id != cid)).length + 1 =
      (projCols db col.projectId).length := by
    rw [← List.countP_eq_length_filter]
    have htotal := List.length_eq_countP_add_countP (fun c : BoardColumn => c.id == cid)
      (projCols db col.projectId)
    have hone : (projCols db col.projectId).countP (fun c => c.id == cid) = 1 :=
      countP_key_eq_one BoardColumn.id _ hndPid col hcolP cid hcid
    have hsame : (projCols db col.projectId).countP (fun c => c.id != cid) =
        (projCols db col.projectId).countP (fun a => decide ¬((a.id == cid) = true)) :=
      List.countP_congr (fun x _ => by simp [bne])
    rw [hsame]
    omega
  have hrest_mem : ∀ c ∈ (projCols db col.projectId).filter (fun c => c.id != cid),
      c ∈ projCols db col.projectId ∧ c.projectId = col.projectId ∧ c.order ≠ col.order := by
    intro c hcf3
    have h2 := List.mem_filter.mp hcf3
    have hidne : c.id ≠ cid := by simpa using h2.2
    have hne : c ≠ col := fun he => hidne (by rw [he, hcid])
    refine ⟨h2.1, ?_, ?_⟩
    · simpa using (List.mem_filter.mp h2.1).2
    · exact fun hcon => hne (hd3 c h2.1 col hcolP hcon)
  have h4g : DenseOrders (((projCols db col.projectId).filter (fun c => c.id != cid)).map
      (colDropShift col.projectId col.order)) := by
    refine ⟨?_, ?_, ?_⟩
    · intro c2 hc2
      rw [List.length_map]
      obtain ⟨c, hcp, hce⟩ := List.mem_map.mp hc2
      subst hce
      obtain ⟨hcP, hcproj, hcneord⟩ := hrest_mem c hcp
      have hb := hd1 c hcP
      rw [hGval c hcproj]
      split_ifs <;> omega
    · intro k hk0 hk1
      rw [List.length_map] at hk1
      have hstep : ∀ s : Int, 0 ≤ s → s < ((projCols db col.projectId).length : Int) →
          s ≠ col.order →
          ∃ c2 ∈ ((projCols db col.projectId).filter (fun c => c.id != cid)).map
            (colDropShift col.projectId col.order),
            c2.order = (if col.order < s then s - 1 else s) := by
        intro s hs0 hs1 hsne
        obtain ⟨c, hcp, hcord⟩ := hd2 s hs0 hs1
        have hcproj : c.projectId = col.projectId := by
          simpa using (List.mem_filter.mp hcp).2
        have hcne : c ≠ col := fun he => hsne (by rw [← hcord, he])
        have hcidne : c.id ≠ cid := fun h =>
          hcne (col_eq_of_id hids (List.mem_filter.mp hcp).1 hcm (by rw [h, hcid]))
        refine ⟨colDropShift col.projectId col.order c,
          List.mem_map_of_mem _ (List.mem_filter.mpr ⟨hcp, by simpa⟩), ?_⟩
        rw [hGval c hcproj, hcord]
      by_cases hk : col.order ≤ k
      · obtain ⟨c2, hc2, hc2o⟩ := hstep (k + 1) (by omega) (by omega) (by omega)
        refine ⟨c2, hc2, ?_⟩
        rw [hc2o, if_pos (by omega)]
        omega
      · obtain ⟨c2, hc2, hc2o⟩ := hstep k hk0 (by omega) (by omega)
        refine ⟨c2, hc2, ?_⟩
        rw [hc2o, if_neg (by omega)]
    · intro x hx y hy hxy
      obtain ⟨c, hcp, hce⟩ := List.mem_map.mp hx
      obtain ⟨c2, hc2p, hc2e⟩ := List.mem_map.mp hy
      subst hce
      subst hc2e
      obtain ⟨hcP, hcproj, hcneord⟩ := hrest_mem c hcp
      obtain ⟨hc2P, hc2proj, hc2neord⟩ := hrest_mem c2 hc2p
      have hb := hd1 c hcP
      have hb2 := hd1 c2 hc2P
      rw [hGval c hcproj, hGval c2 hc2proj] at hxy
      have hord : c.order = c2.order := by
        revert hxy
        split_ifs <;> omega
      rw [hd3 c hcP c2 hc2P hord]
  have h8g : ∀ fbid : Option Nat, ∀ u ∈ db.tasks, u.columnId ≠ some cid →
      u ∈ db.tasks.map (rehome cid fbid) := by
    intro fbid u hu hcol2
    have := List.mem_map_of_mem (rehome cid fbid) hu
    rw [show rehome cid fbid u = u from by
      unfold rehome
      rw [if_neg (by simpa using hcol2)]] at this
    exact this
  have h6g : ∀ fbid : Option Nat, fbid ≠ some cid →
      ∀ u2 ∈ db.tasks.map (rehome cid fbid), u2.columnId ≠ some cid := by
    intro fbid hfbne u2 hu2
    obtain ⟨u, hu, hue⟩ := List.mem_map.mp hu2
    subst hue
    unfold rehome
    by_cases hcu : (u.columnId == some cid) = true
    · rw [if_pos hcu]
      exact hfbne
    · rw [if_neg hcu]
      simpa using hcu
  have hmove : ∀ fbid : Option Nat, ∀ u ∈ db.tasks, u.columnId = some cid →
      ({ u with columnId := fbid, position := none } : Task) ∈ db.tasks.map (rehome cid fbid) := by
    intro fbid u hu hcol2
    have := List.mem_map_of_mem (rehome cid fbid) hu
    rw [show rehome cid fbid u = { u with columnId := fbid, position := none } from by
      unfold rehome
      rw [if_pos (by simp [hcol2])]] at this
    exact this
  rcases hfb : (sortByOrder (otherCols db col.projectId cid)).head? with _ | fb
  · have hempty : otherCols db col.projectId cid = [] := by
      cases hL : sortByOrder (otherCols db col.projectId cid) with
      | nil =>
        have hperm : (sortByOrder (otherCols db col.projectId cid)).Perm
          (otherCols db col.projectId cid) := List.perm_insertionSort _ _
        rw [hL] at hperm
        exact (hperm.symm.eq_nil)
      | cons x xs =>
        rw [hL] at hfb
        simp at hfb
    rw [hfb] at heval2 hproj2
    rw [heval2]
    refine ⟨heval1, h2g, h3g, ?_, ?_, h6g _ (by simp), ?_, ?_, h8g _, ?_⟩
    · rw [hproj2]
      exact h4g
    · rw [hproj2, List.length_map]
      exact hrestlen
    · intro _ u hu hcol2
      exact hmove none u hu hcol2
    · intro hne
      exact absurd hempty hne
    · intro cid2 h2none
      unfold delete_board_column
      rw [h2none]
  · obtain ⟨hfbmem, hfbmin⟩ := sortByOrder_head_min _ fb hfb
    have hfbid : fb.id ≠ cid := by
      have := (List.mem_filter.mp hfbmem).2
      simp at this
      exact this.2
    rw [hfb] at heval2 hproj2
    rw [heval2]
    refine ⟨heval1, h2g, h3g, ?_, ?_, h6g _ (by simp [hfbid]), ?_, ?_, h8g _, ?_⟩
    · rw [hproj2]
      exact h4g
    · rw [hproj2, List.length_map]
      exact hrestlen
    · intro hempty
      rw [hempty] at hfb
      simp [sortByOrder, List.insertionSort] at hfb
    · intro _
      refine ⟨fb, hfbmem, hfbmin, ?_⟩
      intro u hu hcol2
      exact hmove (some fb.id) u hu hcol2
    · intro cid2 h2none
      unfold delete_board_column
      rw [h2none]

/-- Witness for C4 at a concrete store: deleting the first of the two
columns of a project re-homes its task to the remaining column. -/
theorem c4_delete_column_witness :
    DenseOrders (projCols w4DB 1) ∧
    ((delete_board_column w4DB 1).1 = true ∧
    (∀ c2 ∈ (delete_board_column w4DB 1).2.columns, c2.id ≠ 1) ∧
    (∀ c ∈ w4DB.columns, c.id ≠ 1 →
      ∃ c2 ∈ (delete_board_column w4DB 1).2.columns, c2.id = c.id ∧
        c2.projectId = c.projectId ∧
        c2.order = (if c.projectId = 1 ∧ 0 < c.order then c.order - 1 else c.order)) ∧
    DenseOrders (projCols (delete_board_column w4DB 1).2 1) ∧
    (projCols (delete_board_column w4DB 1).2 1).length + 1 = (projCols w4DB 1).length ∧
    (∀ u2 ∈ (delete_board_column w4DB 1).2.tasks, u2.columnId ≠ some 1) ∧
    (otherCols w4DB 1 1 = [] → ∀ u ∈ w4DB.tasks, u.columnId = some 1 →
      ({ u with columnId := none, position := none } : Task) ∈ (delete_board_column w4DB 1).2.tasks) ∧
    (otherCols w4DB 1 1 ≠ [] → ∃ fb, fb ∈ otherCols w4DB 1 1 ∧
      (∀ c ∈ otherCols w4DB 1 1, fb.order ≤ c.order) ∧
      ∀ u ∈ w4DB.tasks, u.columnId = some 1 →
        ({ u with columnId := some fb.id, position := none } : Task) ∈ (delete_board_column w4DB 1).2.tasks) ∧
    (∀ u ∈ w4DB.tasks, u.columnId ≠ some 1 → u ∈ (delete_board_column w4DB 1).2.tasks) ∧
    (∀ cid2, get_column_by_id w4DB cid2 = none → delete_board_column w4DB cid2 = (false, w4DB))) := by
  have hd : DenseOrders (projCols w4DB 1) := by
    refine ⟨by decide, ?_, by decide⟩
    intro k h1 h2
    have hlen : ((projCols w4DB 1).length : Int) = 2 := by decide
    rw [hlen] at h2
    have : k = 0 ∨ k = 1 := by omega
    rcases this with h | h <;> subst h
    · exact ⟨⟨1, 1, 0⟩, by decide, rfl⟩
    · exact ⟨⟨2, 1, 1⟩, by decide, rfl⟩
  exact ⟨hd, c4_delete_column w4DB 1 ⟨1, 1, 0⟩ (by decide) (by decide) hd⟩

end PM
